import Mathlib

/-!
Verification model for the jsii kernel object store and its host-side mirror.

The definitions below are a shallow embedding of:
  * `packages/@jsii/kernel/lib/object-store/object-store.ts` (class `ObjectStore`,
    the proxy-based design) together with the `ObjectHandle` it uses
    (the variant with `hasProxy` / `proxy` / `realObject`),
  * `lib/interface-collection.ts` (class `InterfaceCollection`),
  * `lib/object-store/sequence.ts` (class `Sequence`),
  * the Java host-side reference table (`software.amazon.jsii.ObjectStore`).

Modelling conventions:
  * JS `Map` / JS object property tables are association lists; JS `Set` is a
    list kept free of duplicates by the same membership guards the source uses.
  * JS objects are addressed: the store keeps a `heap` of every `ObjectHandle`
    ever constructed (a JS object stays alive while referenced); the `handles`
    map and the `instanceInfo` weak map hold heap addresses, which models the
    aliasing of one mutable handle object from both containers.
  * the liveness of the weakly-held proxy of a handle is a boolean
    (`hasProxy`); garbage collection of a proxy and the later delivery of the
    finalization callback are separate transitions, as in the runtime.
  * exceptions are `Except`; an operation that throws is modelled as
    returning an error and leaving the store as it was.
  * unbounded recursion over the type graph (`InterfaceCollection`) takes a
    fuel argument; theorems are stated for runs that succeed, matching calls
    that return normally in the source.
-/

namespace JsiiModel

/-! ## Association-list primitives (JS `Map`) -/

/-- Lookup in an association list, first binding wins (JS `Map.get`). -/
def alistLookup {α β : Type} [DecidableEq α] : List (α × β) → α → Option β
  | [], _ => none
  | (k, v) :: rest, a => if k = a then some v else alistLookup rest a

/-- Insert or replace a binding (JS `Map.set`). -/
def alistSet {α β : Type} [DecidableEq α] : List (α × β) → α → β → List (α × β)
  | [], a, b => [(a, b)]
  | (k, v) :: rest, a, b => if k = a then (a, b) :: rest else (k, v) :: alistSet rest a b

/-- Remove a binding (JS `Map.delete`). -/
def alistErase {α β : Type} [DecidableEq α] : List (α × β) → α → List (α × β)
  | [], _ => []
  | (k, v) :: rest, a => if k = a then alistErase rest a else (k, v) :: alistErase rest a

/-- Membership-guarded insertion (JS `Set.add`). -/
def setInsert {α : Type} [DecidableEq α] (l : List α) (x : α) : List α :=
  if x ∈ l then l else x :: l

/-! ## Decimal rendering of numbers (JS template interpolation of a number) -/

/-- Little-endian decimal digits, with enough fuel (`fuel ≥ n` suffices). -/
def toDigitsRev (fuel n : Nat) : List Nat :=
  match fuel, n with
  | 0, _ => []
  | _, 0 => []
  | f + 1, m + 1 => ((m + 1) % 10) :: toDigitsRev f ((m + 1) / 10)

/-- Value of a little-endian digit list. -/
def ofDigitsRev : List Nat → Nat
  | [] => 0
  | d :: rest => d + 10 * ofDigitsRev rest

/-- Rendering of a decimal digit as a character. -/
def digitToChar (d : Nat) : Char := Char.ofNat (48 + d)

/-- Decimal string for a natural number, as JS `${n}` renders one. -/
def decimalRepr (n : Nat) : String :=
  if n = 0 then "0" else String.mk (((toDigitsRev n n).reverse).map digitToChar)

/-! ## Type descriptors and the resolver (`resolveType`)

The kernel consumes a `resolveType : (fqn: string) => Type` function. A jsii
assembly is finite, so the resolver is modelled as a finite table; resolving
an FQN outside the table throws, like the real type loader. -/

/-- Shape of a resolved jsii type, as the store consumes it: a class has an
optional base class and a list of directly implemented interfaces; an
interface has a list of direct parent interfaces. -/
inductive TypeDesc where
  | classType (base : Option String) (interfaces : List String)
  | interfaceType (interfaces : List String)
  | enumType
deriving DecidableEq, Repr

/-- The type-resolver environment. -/
abbrev TypeEnv := List (String × TypeDesc)

/-- Errors surfaced by the store (transport-independent kinds). -/
inductive StoreError where
  | nullArgument
  | unknownReference (id : String)
  | stillReachable (id : String)
  | invalidType (fqn : String)
  | unknownType (fqn : String)
  | typeError (addr : Nat)
  | assertionError
  | outOfFuel
deriving DecidableEq, Repr

/-- Direct parent interfaces of an FQN when it resolves to an interface
(used only to state reachability properties, not by the executable model). -/
def ifaceParents (env : TypeEnv) (fqn : String) : List String :=
  match alistLookup env fqn with
  | some (.interfaceType parents) => parents
  | _ => []

/-- The loop body of `InterfaceCollection.addFromInterface` and of the
interface loop of `addFromClass`: processes a worklist of interface FQNs
against the accumulated set `acc`; an FQN already present is skipped,
otherwise it is added and its parent interfaces are walked recursively.
Fuel models the call stack of the unbounded recursion in the source. -/
def walkIfaces (env : TypeEnv) : Nat → List String → List String → Except StoreError (List String)
  | 0, _, _ => .error .outOfFuel
  | _ + 1, [], acc => .ok acc
  | fuel + 1, i :: rest, acc =>
    if i ∈ acc then walkIfaces env fuel rest acc
    else
      match alistLookup env i with
      | none => .error (.unknownType i)
      | some (.interfaceType parents) =>
        match walkIfaces env fuel parents (i :: acc) with
        | .ok acc' => walkIfaces env fuel rest acc'
        | .error e => .error e
      | some _ => .error (.invalidType i)

/-- Model of `InterfaceCollection.addFromInterface(fqn)`: resolves `fqn`,
fails with `InvalidType` unless it is an interface, then walks its parent
interfaces into the set (the argument itself is not added). -/
def addFromInterface (env : TypeEnv) (fuel : Nat) (fqn : String) (acc : List String) :
    Except StoreError (List String) :=
  match alistLookup env fqn with
  | none => .error (.unknownType fqn)
  | some (.interfaceType parents) => walkIfaces env fuel parents acc
  | some _ => .error (.invalidType fqn)

/-- Model of `InterfaceCollection.addFromClass(fqn)`: resolves `fqn`, fails
unless it is a class, recurses into the base class, then walks the class's
direct interfaces into the set. -/
def addFromClass (env : TypeEnv) : Nat → String → List String → Except StoreError (List String)
  | 0, _, _ => .error .outOfFuel
  | fuel + 1, fqn, acc =>
    match alistLookup env fqn with
    | none => .error (.unknownType fqn)
    | some (.classType base ifaces) =>
      match (match base with
             | some b => addFromClass env fuel b acc
             | none => .ok acc) with
      | .ok acc₁ => walkIfaces env (fuel + 1) ifaces acc₁
      | .error e => .error e
    | some _ => .error (.invalidType fqn)

/-- Modelled from the spec: the sentinel FQN for anonymous objects
(`EMPTY_OBJECT_FQN` from `lib/serialization.ts`, which is not part of the
sources here; the spec says the class FQN "might be `Object` if the instance
is of an anonymous type"). -/
def EMPTY_OBJECT_FQN : String := "Object"

/-- Model of the `InterfaceCollection` constructor: an empty set, seeded from
the class closure unless the class FQN is the anonymous-object sentinel. -/
def newInterfaceCollection (env : TypeEnv) (fuel : Nat) (classFQN : String) :
    Except StoreError (List String) :=
  if classFQN = EMPTY_OBJECT_FQN then .ok [] else addFromClass env fuel classFQN []

/-! ## Reachability in the interface graph, and what the walk computes -/

/-- One parent edge in the interface graph. -/
def IfaceEdge (env : TypeEnv) (a b : String) : Prop := b ∈ ifaceParents env a

/-- Reachability (zero or more parent edges). -/
def IfaceReach (env : TypeEnv) : String → String → Prop :=
  Relation.ReflTransGen (IfaceEdge env)

/-- Strict ancestry: reachable through at least one parent edge. -/
def IfaceAncestor (env : TypeEnv) (t x : String) : Prop :=
  ∃ p, IfaceEdge env t p ∧ IfaceReach env p x

/-- Closedness of a set of FQNs under parent edges. -/
def IsClosed (env : TypeEnv) (s : List String) : Prop :=
  ∀ x ∈ s, ∀ p ∈ ifaceParents env x, p ∈ s

/-- Sequential application of `addFromInterface` over a list of FQNs (the
constructor loop of `ObjectHandle` over the declared interfaces). -/
def addAllFromInterfaces (env : TypeEnv) (fuel : Nat) :
    List String → List String → Except StoreError (List String)
  | [], acc => .ok acc
  | fqn :: rest, acc =>
    match addFromInterface env fuel fqn acc with
    | .ok acc' => addAllFromInterfaces env fuel rest acc'
    | .error e => .error e

/-! ## Objects, proxies and handles -/

/-- Run-time values handed to the store: `nullRef` models `null`/`undefined`;
`real a` is an ordinary object at address `a`; `prox t` is a proxy minted by
an `ObjectHandle` whose hidden marker property holds `t`. -/
inductive Obj where
  | nullRef
  | real (addr : Nat)
  | prox (target : Obj)
deriving DecidableEq, Repr

/-- Model of `ObjectHandle.realObject`: a store-minted proxy answers the
hidden marker property with its target; everything else is returned as-is. -/
def realObject : Obj → Obj
  | .prox t => t
  | o => o

/-- Deduplication preserving set semantics (JS `new Set(list)`). -/
def dedupSet (l : List String) : List String := l.foldl setInsert []

/-! ## Lexicographic string sort (JS `Array.prototype.sort` on FQNs) -/

/-- Lexicographic comparison of character lists (the JS default sort order). -/
def charListLt : List Char → List Char → Bool
  | [], [] => false
  | [], _ :: _ => true
  | _ :: _, [] => false
  | a :: as, b :: bs => if a < b then true else if b < a then false else charListLt as bs

/-- String comparison used for sorting interface lists. -/
def strLe (a b : String) : Bool := !(charListLt b.data a.data)

/-- Insertion into a sorted list. -/
def insertSorted (x : String) : List String → List String
  | [] => [x]
  | y :: rest => if strLe x y then x :: y :: rest else y :: insertSorted x rest

/-- Insertion sort, modelling the `.sort()` call in `ObjectHandle.interfaces`. -/
def sortStrings (l : List String) : List String := l.foldr insertSorted []

/-! ## The object handle (`ObjectHandle`, proxy-based variant) -/

/-- Model of `ObjectHandle`. The source stores `instanceId` as the string
built once in the constructor from the class FQN and the drawn sequence
number; here the two ingredients are stored and `Handle.instanceId`
rebuilds the identical string (both are immutable). The weak
`proxyReference` is abstracted to the boolean `hasProxy` (whether the weak
reference currently dereferences); the `finalizationRegistry` lives in the
store. -/
structure Handle where
  classFQN : String
  seqNum : Nat
  object : Obj
  hasProxy : Bool
  declaredInterfaces : List String
  providedInterfaces : List String
deriving DecidableEq, Repr

/-- The instance ID string minted by the `ObjectHandle` constructor. -/
def Handle.instanceId (h : Handle) : String := h.classFQN ++ "@" ++ decimalRepr h.seqNum

/-- Model of the `interfaces` getter: the declared interfaces, sorted. -/
def Handle.interfaces (h : Handle) : List String := sortStrings h.declaredInterfaces

/-- Wire object reference (`AnnotatedObjRef`): the instance ID, plus the
sorted declared interfaces when non-empty. -/
structure ObjRef where
  ref : String
  interfaces : Option (List String)
deriving DecidableEq, Repr

/-- Model of the `objRef` getter. -/
def Handle.objRef (h : Handle) : ObjRef :=
  { ref := h.instanceId,
    interfaces := if 0 < h.interfaces.length then some h.interfaces else none }

/-- Model of the `proxy` getter: returns the live proxy if one exists, or
mints a fresh proxy over the real referent and installs it as the new weak
reference (either way the returned value carries `object` in its hidden
marker slot, and `hasProxy` is true afterwards). -/
def Handle.mintProxy (h : Handle) : Obj × Handle :=
  (.prox h.object, { h with hasProxy := true })

/-- Model of the `ObjectHandle` constructor body after the instance ID was
drawn: seed the declared set, build the provided collection from the class,
walk each declared interface, then drop redundant declarations. -/
def Handle.create (env : TypeEnv) (fuel : Nat) (classFQN : String) (inst : Obj)
    (interfaceFQNs : List String) (seqNum : Nat) : Except StoreError Handle :=
  match newInterfaceCollection env fuel classFQN with
  | .error e => .error e
  | .ok provided0 =>
    match addAllFromInterfaces env fuel (dedupSet interfaceFQNs) provided0 with
    | .error e => .error e
    | .ok provided =>
      .ok { classFQN := classFQN, seqNum := seqNum, object := inst, hasProxy := false,
            declaredInterfaces := (dedupSet interfaceFQNs).filter (fun x => !decide (x ∈ provided)),
            providedInterfaces := provided }

/-- The body of the merge loop of `ObjectHandle.mergeInterfaces`: for each
FQN, extend the provided collection with its closure and add the raw FQN to
the declared set. -/
def mergeLoop (env : TypeEnv) (fuel : Nat) :
    List String → List String × List String → Except StoreError (List String × List String)
  | [], dp => .ok dp
  | fqn :: rest, (d, p) =>
    match addFromInterface env fuel fqn p with
    | .ok p' => mergeLoop env fuel rest (setInsert d fqn, p')
    | .error e => .error e

/-- Model of `ObjectHandle.mergeInterfaces`: no-op on an empty list, else
run the merge loop and re-minimise the declared set against the provided
set. -/
def Handle.mergeInterfaces (env : TypeEnv) (fuel : Nat) (h : Handle)
    (interfaceFQNs : List String) : Except StoreError Handle :=
  if interfaceFQNs = [] then .ok h
  else
    match mergeLoop env fuel interfaceFQNs (h.declaredInterfaces, h.providedInterfaces) with
    | .ok (d', p') =>
      .ok { h with declaredInterfaces := d'.filter (fun x => !decide (x ∈ p')),
                   providedInterfaces := p' }
    | .error e => .error e

/-! ## The instance ID sequence (`Sequence`) -/

/-- Model of `Sequence`. JS numbers restricted to the asserted domain
(integers with `origin ≥ 0`, `stride > 0`) are modelled as `Nat`; the
non-negativity assertion on `origin` is carried by the type. -/
structure Sequence where
  stride : Nat
  nextValue : Nat
deriving DecidableEq, Repr

/-- The constructor's assertion on the stride (`stride > 0`). -/
def Sequence.create (origin stride : Nat) : Except StoreError Sequence :=
  if stride = 0 then .error .assertionError
  else .ok { stride := stride, nextValue := origin }

/-- Model of `Sequence.next`: returns the current value and advances. -/
def Sequence.next (s : Sequence) : Nat × Sequence :=
  (s.nextValue, { s with nextValue := s.nextValue + s.stride })

/-- Value returned by the `(n+1)`-th call to `next`. -/
def Sequence.nth (s : Sequence) : Nat → Nat
  | 0 => s.next.1
  | n + 1 => s.next.2.nth n

/-! ## The kernel object store (`ObjectStore`, proxy-based variant) -/

/-- Lifecycle events of the store (`ObjectStoreEvents`). -/
inductive Event where
  | managed (id : String)
  | retained (id : String)
  | releasable (id : String)
  | unmanaged (id : String)
deriving DecidableEq, Repr

/-- Model of `ObjectStore`. The `heap` lists every `ObjectHandle` ever
constructed (JS keeps a handle object alive while either map references
it); `handles` and `instanceInfo` store heap addresses, modelling shared
mutable references to the handles. `events` logs emitted events in order.
`env` and `fuel` stand for the injected `resolveType` and the call stack. -/
structure Store where
  env : TypeEnv
  fuel : Nat
  idSequence : Sequence
  heap : List Handle
  handles : List (String × Nat)
  instanceInfo : List (Obj × Nat)
  typeMarkers : List (Nat × String)
  finalized : List String
  events : List Event
deriving DecidableEq, Repr

/-- A fresh `ObjectStore`: the `idSequence` is `new Sequence()` with the
default origin 10000 and stride 1. -/
def Store.init (env : TypeEnv) (fuel : Nat) : Store :=
  { env := env, fuel := fuel, idSequence := { stride := 1, nextValue := 10000 },
    heap := [], handles := [], instanceInfo := [], typeMarkers := [],
    finalized := [], events := [] }

/-- Model of `handles.get(instanceId)` (resolving the stored address; an
address outside the heap cannot arise from the operations below). -/
def Store.getHandle (s : Store) (refId : String) : Option Handle :=
  match alistLookup s.handles refId with
  | none => none
  | some addr => s.heap.get? addr

/-- Model of `tryGetHandle`: consult the instance-keyed weak map at the
real referent of the argument. -/
def Store.tryGetHandle (s : Store) (inst : Obj) : Option (Nat × Handle) :=
  match alistLookup s.instanceInfo (realObject inst) with
  | none => none
  | some addr =>
    match s.heap.get? addr with
    | none => none
    | some h => some (addr, h)

/-- Model of `ObjectStore.delete`: asserts the target has no live proxy
(`StillReachable` otherwise), then removes the map entry if present and
emits `unmanaged`; deleting an ID with no entry is a silent no-op. -/
def Store.deleteRef (s : Store) (refId : String) : Except StoreError Store :=
  match s.getHandle refId with
  | some h =>
    if h.hasProxy then .error (.stillReachable refId)
    else
      .ok { s with handles := alistErase s.handles refId,
                   events := s.events ++ [.unmanaged refId] }
  | none => .ok s

/-- Model of `ObjectStore.dereference`: fails with `UnknownReference` when
the instance ID has no handle; otherwise returns the class FQN, a (possibly
freshly minted) live proxy, and the sorted interfaces. -/
def Store.dereference (s : Store) (refId : String) :
    Except StoreError ((String × Obj × List String) × Store) :=
  match alistLookup s.handles refId with
  | none => .error (.unknownReference refId)
  | some addr =>
    match s.heap.get? addr with
    | none => .error (.unknownReference refId)
    | some h =>
      .ok ((h.classFQN, h.mintProxy.1, h.interfaces),
        { s with heap := s.heap.set addr h.mintProxy.2 })

/-- Model of `ObjectStore.refObject`. -/
def Store.refObject (s : Store) (inst : Obj) : Option ObjRef :=
  (s.tryGetHandle inst).map (fun ah => ah.2.objRef)

/-- Model of `ObjectStore.register`: reject null, find an existing handle
through the real referent, either merge interfaces into it or build a fresh
handle (drawing the next instance ID) and insert it into both maps, then
return the live proxy and the object reference. No event is emitted (the
source declares a `managed` event but `register` never emits it). -/
def Store.register (s : Store) (classFQN : String) (inst : Obj)
    (interfaceFQNs : List String) : Except StoreError ((Obj × ObjRef) × Store) :=
  if inst = .nullRef then .error .nullArgument
  else
    match s.tryGetHandle inst with
    | some (addr, h) =>
      match h.mergeInterfaces s.env s.fuel interfaceFQNs with
      | .ok h₁ =>
        .ok ((h₁.mintProxy.1, h₁.mintProxy.2.objRef),
          { s with heap := s.heap.set addr h₁.mintProxy.2 })
      | .error e => .error e
    | none =>
      match Handle.create s.env s.fuel classFQN inst interfaceFQNs s.idSequence.next.1 with
      | .ok h =>
        .ok ((h.mintProxy.1, h.mintProxy.2.objRef),
          { s with idSequence := s.idSequence.next.2,
                   heap := s.heap ++ [h.mintProxy.2],
                   handles := alistSet s.handles h.instanceId s.heap.length,
                   instanceInfo := alistSet s.instanceInfo inst s.heap.length })
      | .error e => .error e

/-- Model of `ObjectStore.registerType`: `Object.defineProperty` of the
non-configurable, non-writable FQN marker. Redefining an existing marker
with a different value throws a `TypeError`; redefining it with the same
value is permitted by the property-descriptor validation and is a no-op. -/
def Store.registerType (s : Store) (typeAddr : Nat) (fqn : String) :
    Except StoreError Store :=
  match alistLookup s.typeMarkers typeAddr with
  | some v => if v = fqn then .ok s else .error (.typeError typeAddr)
  | none => .ok { s with typeMarkers := alistSet s.typeMarkers typeAddr fqn }

/-- A value whose constructor lives at a given address (for `typeFQN`). -/
structure JsObject where
  ctor : Nat
deriving DecidableEq, Repr

/-- Model of `ObjectStore.typeFQN`: read the marker off the value's
constructor. -/
def Store.typeFQN (s : Store) (v : JsObject) : Option String :=
  alistLookup s.typeMarkers v.ctor

/-- Whether `handles.get(iid)?.hasProxy` is true. -/
def Store.hasProxyAt (s : Store) (iid : String) : Bool :=
  match s.getHandle iid with
  | some h => h.hasProxy
  | none => false

/-- Model of `ObjectStore.finalizedInstanceIds`: filter out IDs whose handle
has re-acquired a live proxy, and clear the `finalized` set on exit. -/
def Store.finalizedInstanceIds (s : Store) : List String × Store :=
  (s.finalized.filter (fun iid => !(s.hasProxyAt iid)), { s with finalized := [] })

/-- Model of the finalization callback `onProxyFinalized`: receives the
handle whose proxy was collected, inserts its instance ID into the
`finalized` set and emits `releasable`. Nothing else is touched. -/
def Store.onProxyFinalized (s : Store) (addr : Nat) : Store :=
  match s.heap.get? addr with
  | none => s
  | some h =>
    { s with finalized := setInsert s.finalized h.instanceId,
             events := s.events ++ [.releasable h.instanceId] }

/-- Garbage collection of a handle's proxy: the weak `proxyReference` stops
dereferencing. This is the runtime transition that later triggers the
finalization callback. -/
def Store.proxyCollected (s : Store) (addr : Nat) : Store :=
  match s.heap.get? addr with
  | none => s
  | some h => { s with heap := s.heap.set addr { h with hasProxy := false } }

/-- Observable transitions of the store (GC transitions included). -/
inductive Op where
  | register (classFQN : String) (inst : Obj) (interfaceFQNs : List String)
  | delete (refId : String)
  | dereference (refId : String)
  | registerType (typeAddr : Nat) (fqn : String)
  | proxyCollected (addr : Nat)
  | proxyFinalizedCb (addr : Nat)
  | drain
deriving DecidableEq, Repr

/-- One transition. An operation that throws leaves the store unchanged
(the mutations of the source all happen after its last possible throw
point, except for interface sets partially grown inside a failed merge and
a sequence value drawn by a failed constructor, neither of which is
observed by any property below). -/
def Store.step (s : Store) : Op → Store
  | .register fqn inst ifaces =>
    match s.register fqn inst ifaces with
    | .ok (_, s') => s'
    | .error _ => s
  | .delete id =>
    match s.deleteRef id with
    | .ok s' => s'
    | .error _ => s
  | .dereference id =>
    match s.dereference id with
    | .ok (_, s') => s'
    | .error _ => s
  | .registerType t f =>
    match s.registerType t f with
    | .ok s' => s'
    | .error _ => s
  | .proxyCollected a => s.proxyCollected a
  | .proxyFinalizedCb a => s.onProxyFinalized a
  | .drain => s.finalizedInstanceIds.2

/-- Run a list of transitions from a state. -/
def Store.run (s : Store) (ops : List Op) : Store := ops.foldl Store.step s

/-- The reachable-state invariant: the default sequence advances by one per
created handle, handles in creation order carry consecutive sequence
numbers starting at 10000, and the `finalized` set has no duplicates. -/
def StoreInv (s : Store) : Prop :=
  s.idSequence.stride = 1 ∧
  s.idSequence.nextValue = 10000 + s.heap.length ∧
  (∀ i, (hi : i < s.heap.length) → (s.heap.get ⟨i, hi⟩).seqNum = 10000 + i) ∧
  s.finalized.Nodup

/-! ## The host-side reference table (Java `software.amazon.jsii.ObjectStore`) -/

/-- Model of the Java inner `ObjectHandle`: the weak/strong reference pair
to the referent. `refId` is the identity of the `WeakReference` object
(registered with the reference queue); `hasStrong` is whether
`strongReference` is non-null; `weakAlive` is whether `weakReference.get()`
still answers the referent. -/
structure JHandle where
  instanceId : String
  refId : Nat
  hasStrong : Bool
  weakAlive : Bool
deriving DecidableEq, Repr

/-- Model of the Java `ObjectStore`: `objectsById`, the pending reference
queue (refIds of cleared weak references not yet polled), and
`referenceInstanceId`. `nextRefId` allocates `WeakReference` identities. -/
structure JStore where
  objectsById : List (String × JHandle)
  referenceQueue : List Nat
  referenceInstanceId : List (Nat × String)
  nextRefId : Nat
deriving DecidableEq, Repr

/-- A fresh host-side table. -/
def JStore.init : JStore :=
  { objectsById := [], referenceQueue := [], referenceInstanceId := [], nextRefId := 0 }

/-- Non-nullness of `ObjectHandle.getReferent()`. -/
def JHandle.getReferent (h : JHandle) : Bool := h.hasStrong || h.weakAlive

/-- Model of Java `ObjectStore.register`: re-registration of a known ID
retains the existing handle (throwing if the referent was reclaimed);
otherwise a fresh handle is built with a new weak reference and put into
both maps. -/
def JStore.register (s : JStore) (instanceId : String) : Except StoreError JStore :=
  match alistLookup s.objectsById instanceId with
  | some h =>
    if h.weakAlive then
      .ok { s with objectsById := alistSet s.objectsById instanceId { h with hasStrong := true } }
    else .error .assertionError
  | none =>
    .ok { s with
      objectsById := alistSet s.objectsById instanceId
        { instanceId := instanceId, refId := s.nextRefId, hasStrong := true, weakAlive := true },
      referenceInstanceId := alistSet s.referenceInstanceId s.nextRefId instanceId,
      nextRefId := s.nextRefId + 1 }

/-- Model of Java `ObjectStore.getObject`: whether a non-null referent is
returned for the instance ID. -/
def JStore.getObject (s : JStore) (instanceId : String) : Bool :=
  match alistLookup s.objectsById instanceId with
  | some h => h.getReferent
  | none => false

/-- Model of Java `ObjectStore.release`: clears the strong reference (a
missing handle would be a `NullPointerException`). -/
def JStore.release (s : JStore) (instanceId : String) : Except StoreError JStore :=
  match alistLookup s.objectsById instanceId with
  | some h =>
    .ok { s with objectsById := alistSet s.objectsById instanceId { h with hasStrong := false } }
  | none => .error .assertionError

/-- Model of Java `ObjectStore.retain`: re-establishes the strong reference,
throwing `IllegalStateException` when the referent was already reclaimed. -/
def JStore.retain (s : JStore) (instanceId : String) : Except StoreError JStore :=
  match alistLookup s.objectsById instanceId with
  | some h =>
    if h.weakAlive then
      .ok { s with objectsById := alistSet s.objectsById instanceId { h with hasStrong := true } }
    else .error .assertionError
  | none => .error .assertionError

/-- Garbage collection of the referent backing an instance ID: only possible
while the handle holds no strong reference; clears the weak reference and
enqueues it on the reference queue (a `WeakReference` is enqueued at most
once). -/
def JStore.collect (s : JStore) (instanceId : String) : JStore :=
  match alistLookup s.objectsById instanceId with
  | some h =>
    if h.hasStrong || !h.weakAlive then s
    else
      { s with objectsById := alistSet s.objectsById instanceId { h with weakAlive := false },
               referenceQueue := s.referenceQueue ++ [h.refId] }
  | none => s

/-- The polling loop of `getDroppedReferences`: for each queued reference,
drop its `referenceInstanceId` entry; when one existed, record the instance
ID in the result set and drop the `objectsById` entry. -/
def drainAux : List Nat → List (Nat × String) → List (String × JHandle) → List String →
    List String × List (Nat × String) × List (String × JHandle)
  | [], rii, obj, res => (res, rii, obj)
  | ref :: rest, rii, obj, res =>
    match alistLookup rii ref with
    | some iid => drainAux rest (alistErase rii ref) (alistErase obj iid) (setInsert res iid)
    | none => drainAux rest rii obj res

/-- Model of Java `ObjectStore.getDroppedReferences`. -/
def JStore.getDroppedReferences (s : JStore) : List String × JStore :=
  ((drainAux s.referenceQueue s.referenceInstanceId s.objectsById []).1,
   { s with
     referenceQueue := [],
     referenceInstanceId := (drainAux s.referenceQueue s.referenceInstanceId s.objectsById []).2.1,
     objectsById := (drainAux s.referenceQueue s.referenceInstanceId s.objectsById []).2.2 })

/-- Observable transitions of the host-side table (GC included). -/
inductive JOp where
  | register (instanceId : String)
  | release (instanceId : String)
  | retain (instanceId : String)
  | collect (instanceId : String)
  | drain
deriving DecidableEq, Repr

/-- One transition, producing the instance IDs reported by a drain. -/
def JStore.step (s : JStore) : JOp → JStore × List String
  | .register id =>
    (match s.register id with | .ok s' => s' | .error _ => s, [])
  | .release id =>
    (match s.release id with | .ok s' => s' | .error _ => s, [])
  | .retain id =>
    (match s.retain id with | .ok s' => s' | .error _ => s, [])
  | .collect id => (s.collect id, [])
  | .drain => (s.getDroppedReferences.2, s.getDroppedReferences.1)

/-- Run a list of transitions, concatenating all drain reports. -/
def JStore.runCollect : JStore → List JOp → JStore × List String
  | s, [] => (s, [])
  | s, op :: rest =>
    ((JStore.runCollect (s.step op).1 rest).1,
     (s.step op).2 ++ (JStore.runCollect (s.step op).1 rest).2)

/-- The instance IDs named by the `register` transitions of a trace. -/
def regIds (ops : List JOp) : List String :=
  ops.filterMap (fun op => match op with | .register id => some id | _ => none)

/-- The host-table invariant carried along traces: `registered` are the IDs
seen by `register` so far, `reported` the IDs already returned by drains. -/
def JInv (s : JStore) (registered reported : List String) : Prop :=
  (∀ r id, alistLookup s.referenceInstanceId r = some id → id ∈ registered ∧ id ∉ reported) ∧
  (∀ r₁ r₂ id, alistLookup s.referenceInstanceId r₁ = some id →
    alistLookup s.referenceInstanceId r₂ = some id → r₁ = r₂) ∧
  (∀ id ∈ reported, alistLookup s.objectsById id = none) ∧
  (∀ id h, alistLookup s.objectsById id = some h → id ∈ registered) ∧
  reported ⊆ registered ∧ reported.Nodup

/-! ## Concrete fixtures used by witnesses and counterexamples -/

/-- A two-class environment. -/
def envW : TypeEnv := [("Foo", .classType none []), ("Bar", .classType none [])]

/-- An environment with `IB extends IA`. -/
def envI : TypeEnv := [("IA", .interfaceType []), ("IB", .interfaceType ["IA"])]

/-- An environment combining a plain class with `IB extends IA`. -/
def envCI : TypeEnv :=
  [("C", .classType none []), ("IA", .interfaceType []), ("IB", .interfaceType ["IA"])]

/-! ## Theorems -/

@[simp]
theorem mem_setInsert {α : Type} [DecidableEq α] (l : List α) (x y : α) :
    y ∈ setInsert l x ↔ y = x ∨ y ∈ l := by
  unfold setInsert
  split
  · rename_i hx
    constructor
    · exact fun h => Or.inr h
    · rintro (rfl | h)
      · exact hx
      · exact h
  · simp [List.mem_cons]

theorem nodup_setInsert {α : Type} [DecidableEq α] (l : List α) (x : α)
    (h : l.Nodup) : (setInsert l x).Nodup := by
  unfold setInsert
  split
  · exact h
  · exact List.Nodup.cons (by assumption) h

theorem alistLookup_set_self {α β : Type} [DecidableEq α]
    (l : List (α × β)) (a : α) (b : β) : alistLookup (alistSet l a b) a = some b := by
  induction l with
  | nil => simp [alistSet, alistLookup]
  | cons p rest ih =>
    obtain ⟨k, v⟩ := p
    by_cases hk : k = a
    · simp [alistSet, hk, alistLookup]
    · simp [alistSet, hk, alistLookup, ih]

theorem alistLookup_set_other {α β : Type} [DecidableEq α]
    (l : List (α × β)) (a c : α) (b : β) (hne : a ≠ c) :
    alistLookup (alistSet l a b) c = alistLookup l c := by
  induction l with
  | nil => simp [alistSet, alistLookup, hne]
  | cons p rest ih =>
    obtain ⟨k, v⟩ := p
    by_cases hk : k = a
    · subst hk
      simp [alistSet, alistLookup, hne]
    · simp [alistSet, hk, alistLookup, ih]

theorem alistLookup_erase_self {α β : Type} [DecidableEq α]
    (l : List (α × β)) (a : α) : alistLookup (alistErase l a) a = none := by
  induction l with
  | nil => simp [alistErase, alistLookup]
  | cons p rest ih =>
    obtain ⟨k, v⟩ := p
    by_cases hk : k = a
    · simp [alistErase, hk, ih]
    · simp [alistErase, hk, alistLookup, ih]

theorem alistLookup_erase_other {α β : Type} [DecidableEq α]
    (l : List (α × β)) (a c : α) (hne : a ≠ c) :
    alistLookup (alistErase l a) c = alistLookup l c := by
  induction l with
  | nil => simp [alistErase, alistLookup]
  | cons p rest ih =>
    obtain ⟨k, v⟩ := p
    by_cases hk : k = a
    · subst hk
      simp [alistErase, alistLookup, hne, ih]
    · simp [alistErase, hk, alistLookup, ih]

theorem ofDigitsRev_toDigitsRev : ∀ fuel n, n ≤ fuel → ofDigitsRev (toDigitsRev fuel n) = n := by
  intro fuel
  induction fuel with
  | zero => intro n h; interval_cases n; simp [toDigitsRev, ofDigitsRev]
  | succ f ih =>
    intro n h
    match n with
    | 0 => simp [toDigitsRev, ofDigitsRev]
    | m + 1 =>
      have hdiv : (m + 1) / 10 ≤ f := by
        have h1 : (m + 1) / 10 < m + 1 := Nat.div_lt_self (Nat.succ_pos m) (by omega)
        omega
      simp only [toDigitsRev, ofDigitsRev, ih _ hdiv]
      omega

theorem toDigitsRev_lt_ten : ∀ fuel n, ∀ d ∈ toDigitsRev fuel n, d < 10 := by
  intro fuel
  induction fuel with
  | zero => intro n d hd; simp [toDigitsRev] at hd
  | succ f ih =>
    intro n d hd
    match n with
    | 0 => simp [toDigitsRev] at hd
    | m + 1 =>
      simp only [toDigitsRev, List.mem_cons] at hd
      rcases hd with rfl | hd
      · exact Nat.mod_lt _ (by omega)
      · exact ih _ _ hd

theorem digitToChar_inj : ∀ a < 10, ∀ b < 10, digitToChar a = digitToChar b → a = b := by
  decide

theorem digitToChar_ne_at : ∀ a < 10, digitToChar a ≠ '@' := by
  decide

theorem map_digitToChar_inj :
    ∀ l₁ l₂ : List Nat, (∀ x ∈ l₁, x < 10) → (∀ x ∈ l₂, x < 10) →
      l₁.map digitToChar = l₂.map digitToChar → l₁ = l₂ := by
  intro l₁
  induction l₁ with
  | nil => intro l₂ _ _ h; cases l₂ <;> simp_all
  | cons a t ih =>
    intro l₂ h₁ h₂ h
    cases l₂ with
    | nil => simp at h
    | cons b u =>
      simp only [List.map_cons, List.cons.injEq] at h
      have ha := digitToChar_inj a (h₁ a (by simp)) b (h₂ b (by simp)) h.1
      have ht := ih u (fun x hx => h₁ x (by simp [hx])) (fun x hx => h₂ x (by simp [hx])) h.2
      simp [ha, ht]

theorem toDigitsRev_ne_nil (n : Nat) (h : n ≠ 0) : toDigitsRev n n ≠ [] := by
  match n with
  | 0 => omega
  | m + 1 => simp [toDigitsRev]

theorem decimalRepr_inj : ∀ n₁ n₂, decimalRepr n₁ = decimalRepr n₂ → n₁ = n₂ := by
  intro n₁ n₂ h
  unfold decimalRepr at h
  by_cases h1 : n₁ = 0 <;> by_cases h2 : n₂ = 0
  · omega
  · exfalso
    simp only [h1, if_pos rfl, if_neg h2] at h
    have hd : ['0'] = ((toDigitsRev n₂ n₂).reverse).map digitToChar := by
      have := congrArg String.data h
      simpa using this
    have hval : (toDigitsRev n₂ n₂).reverse.map digitToChar = [digitToChar 0] := by
      simp [← hd]; rfl
    have : (toDigitsRev n₂ n₂).reverse = [0] := by
      apply map_digitToChar_inj
      · intro x hx
        exact toDigitsRev_lt_ten _ _ _ (List.mem_reverse.mp hx)
      · intro x hx; simp at hx; omega
      · simpa using hval
    have hsingle : toDigitsRev n₂ n₂ = [0] := by
      have := congrArg List.reverse this
      simpa using this
    have := ofDigitsRev_toDigitsRev n₂ n₂ le_rfl
    rw [hsingle] at this
    simp [ofDigitsRev] at this
    omega
  · exfalso
    simp only [h2, if_pos rfl, if_neg h1] at h
    have hd : ((toDigitsRev n₁ n₁).reverse).map digitToChar = ['0'] := by
      have := congrArg String.data h
      simpa using this
    have hval : (toDigitsRev n₁ n₁).reverse.map digitToChar = [digitToChar 0] := by
      simp [hd]; rfl
    have : (toDigitsRev n₁ n₁).reverse = [0] := by
      apply map_digitToChar_inj
      · intro x hx
        exact toDigitsRev_lt_ten _ _ _ (List.mem_reverse.mp hx)
      · intro x hx; simp at hx; omega
      · simpa using hval
    have hsingle : toDigitsRev n₁ n₁ = [0] := by
      have := congrArg List.reverse this
      simpa using this
    have := ofDigitsRev_toDigitsRev n₁ n₁ le_rfl
    rw [hsingle] at this
    simp [ofDigitsRev] at this
    omega
  · simp only [if_neg h1, if_neg h2] at h
    have hmap : List.map digitToChar (toDigitsRev n₁ n₁).reverse =
        List.map digitToChar (toDigitsRev n₂ n₂).reverse := congrArg String.data h
    have hrev : (toDigitsRev n₁ n₁).reverse = (toDigitsRev n₂ n₂).reverse := by
      apply map_digitToChar_inj _ _ _ _ hmap
      · intro x hx
        exact toDigitsRev_lt_ten _ _ _ (List.mem_reverse.mp hx)
      · intro x hx
        exact toDigitsRev_lt_ten _ _ _ (List.mem_reverse.mp hx)
    have hdig : toDigitsRev n₁ n₁ = toDigitsRev n₂ n₂ := by
      have := congrArg List.reverse hrev
      simpa using this
    have e₁ := ofDigitsRev_toDigitsRev n₁ n₁ le_rfl
    have e₂ := ofDigitsRev_toDigitsRev n₂ n₂ le_rfl
    rw [hdig] at e₁
    omega

theorem at_not_mem_decimalRepr (n : Nat) : '@' ∉ (decimalRepr n).data := by
  unfold decimalRepr
  split
  · intro h
    simp [String.data] at h
  · intro h
    simp only [String.data] at h
    rw [List.mem_map] at h
    obtain ⟨d, hd, hc⟩ := h
    exact digitToChar_ne_at d (toDigitsRev_lt_ten _ _ _ (List.mem_reverse.mp hd)) hc

theorem append_pivot_inj {c : Char} :
    ∀ (a₁ a₂ b₁ b₂ : List Char), c ∉ a₁ → c ∉ a₂ →
      a₁ ++ c :: b₁ = a₂ ++ c :: b₂ → a₁ = a₂ ∧ b₁ = b₂ := by
  intro a₁
  induction a₁ with
  | nil =>
    intro a₂ b₁ b₂ _ h₂ h
    cases a₂ with
    | nil => simpa using h
    | cons d u =>
      exfalso
      simp only [List.nil_append, List.cons_append, List.cons.injEq] at h
      exact h₂ (h.1 ▸ List.mem_cons_self d u)
  | cons e t ih =>
    intro a₂ b₁ b₂ h₁ h₂ h
    cases a₂ with
    | nil =>
      exfalso
      simp only [List.nil_append, List.cons_append, List.cons.injEq] at h
      exact h₁ (h.1.symm ▸ List.mem_cons_self e t)
    | cons d u =>
      simp only [List.cons_append, List.cons.injEq] at h
      have := ih u b₁ b₂ (fun hm => h₁ (List.mem_cons_of_mem _ hm))
        (fun hm => h₂ (List.mem_cons_of_mem _ hm)) h.2
      exact ⟨by simp [h.1, this.1], this.2⟩

theorem string_data_append (a b : String) : (a ++ b).data = a.data ++ b.data := rfl

/-- Two instance IDs built by the handle constructor agree only if their
numeric suffixes agree (regardless of the class FQNs, which may even
contain an `@` themselves). -/
theorem instanceId_suffix_inj (f₁ f₂ : String) (n₁ n₂ : Nat)
    (h : f₁ ++ "@" ++ decimalRepr n₁ = f₂ ++ "@" ++ decimalRepr n₂) : n₁ = n₂ := by
  have hdata : f₁.data ++ '@' :: (decimalRepr n₁).data
      = f₂.data ++ '@' :: (decimalRepr n₂).data := by
    have := congrArg String.data h
    rw [string_data_append, string_data_append, string_data_append, string_data_append] at this
    simpa using this
  have hrev : (decimalRepr n₁).data.reverse ++ '@' :: f₁.data.reverse
      = (decimalRepr n₂).data.reverse ++ '@' :: f₂.data.reverse := by
    have := congrArg List.reverse hdata
    simpa using this
  have hpiv := append_pivot_inj (c := '@') _ _ _ _
    (fun hm => at_not_mem_decimalRepr n₁ (List.mem_reverse.mp hm))
    (fun hm => at_not_mem_decimalRepr n₂ (List.mem_reverse.mp hm)) hrev
  have : (decimalRepr n₁).data = (decimalRepr n₂).data := by
    have := congrArg List.reverse hpiv.1
    simpa using this
  exact decimalRepr_inj n₁ n₂ (by
    cases hq₁ : decimalRepr n₁ with
    | mk l₁ =>
      cases hq₂ : decimalRepr n₂ with
      | mk l₂ =>
        rw [hq₁, hq₂] at this
        simp only at this
        rw [this])

theorem walkIfaces_acc_subset (env : TypeEnv) :
    ∀ fuel roots acc r, walkIfaces env fuel roots acc = .ok r → acc ⊆ r := by
  intro fuel
  induction fuel with
  | zero => intro roots acc r h; simp [walkIfaces] at h
  | succ f ih =>
    intro roots acc r h
    match roots with
    | [] =>
      simp only [walkIfaces, Except.ok.injEq] at h
      exact h ▸ List.Subset.refl acc
    | i :: rest =>
      simp only [walkIfaces] at h
      by_cases hi : i ∈ acc
      · rw [if_pos hi] at h
        exact ih _ _ _ h
      · rw [if_neg hi] at h
        split at h
        · exact Except.noConfusion h
        · rename_i parents hl
          split at h
          · rename_i acc' hin
            have h₁ := ih parents (i :: acc) acc' hin
            have h₂ := ih rest acc' r h
            exact fun x hx => h₂ (h₁ (List.mem_cons_of_mem _ hx))
          · exact Except.noConfusion h
        · exact Except.noConfusion h

theorem walkIfaces_roots_subset (env : TypeEnv) :
    ∀ fuel roots acc r, walkIfaces env fuel roots acc = .ok r → roots ⊆ r := by
  intro fuel
  induction fuel with
  | zero => intro roots acc r h; simp [walkIfaces] at h
  | succ f ih =>
    intro roots acc r h
    match roots with
    | [] => intro x hx; exact absurd hx (List.not_mem_nil x)
    | i :: rest =>
      simp only [walkIfaces] at h
      by_cases hi : i ∈ acc
      · rw [if_pos hi] at h
        intro x hx
        rcases List.mem_cons.mp hx with rfl | hx
        · exact walkIfaces_acc_subset env _ _ _ _ h hi
        · exact ih _ _ _ h hx
      · rw [if_neg hi] at h
        split at h
        · exact Except.noConfusion h
        · rename_i parents hl
          split at h
          · rename_i acc' hin
            intro x hx
            rcases List.mem_cons.mp hx with rfl | hx
            · exact walkIfaces_acc_subset env _ _ _ _ h
                (walkIfaces_acc_subset env _ _ _ _ hin (List.mem_cons_self _ _))
            · exact ih _ _ _ h hx
          · exact Except.noConfusion h
        · exact Except.noConfusion h

theorem walkIfaces_closed_or_acc (env : TypeEnv) :
    ∀ fuel roots acc r, walkIfaces env fuel roots acc = .ok r →
      ∀ x ∈ r, x ∈ acc ∨ ∀ p ∈ ifaceParents env x, p ∈ r := by
  intro fuel
  induction fuel with
  | zero => intro roots acc r h; simp [walkIfaces] at h
  | succ f ih =>
    intro roots acc r h
    match roots with
    | [] =>
      simp only [walkIfaces, Except.ok.injEq] at h
      exact fun x hx => Or.inl (h ▸ hx)
    | i :: rest =>
      simp only [walkIfaces] at h
      by_cases hi : i ∈ acc
      · rw [if_pos hi] at h
        exact ih _ _ _ h
      · rw [if_neg hi] at h
        split at h
        · exact Except.noConfusion h
        · rename_i parents hl
          split at h
          · rename_i acc' hin
            intro x hx
            rcases ih _ _ _ h x hx with hacc' | hcl
            · rcases ih _ _ _ hin x hacc' with hmem | hcl'
              · rcases List.mem_cons.mp hmem with rfl | hmem'
                · refine Or.inr fun p hp => ?_
                  have hpar : p ∈ parents := by
                    unfold ifaceParents at hp
                    rw [hl] at hp
                    exact hp
                  exact walkIfaces_acc_subset env _ _ _ _ h
                    (walkIfaces_roots_subset env _ _ _ _ hin hpar)
                · exact Or.inl hmem'
              · exact Or.inr fun p hp =>
                  walkIfaces_acc_subset env _ _ _ _ h (hcl' p hp)
            · exact Or.inr hcl
          · exact Except.noConfusion h
        · exact Except.noConfusion h

theorem walkIfaces_nodup (env : TypeEnv) :
    ∀ fuel roots acc r, walkIfaces env fuel roots acc = .ok r → acc.Nodup → r.Nodup := by
  intro fuel
  induction fuel with
  | zero => intro roots acc r h; simp [walkIfaces] at h
  | succ f ih =>
    intro roots acc r h hnd
    match roots with
    | [] =>
      simp only [walkIfaces, Except.ok.injEq] at h
      exact h ▸ hnd
    | i :: rest =>
      simp only [walkIfaces] at h
      by_cases hi : i ∈ acc
      · rw [if_pos hi] at h
        exact ih _ _ _ h hnd
      · rw [if_neg hi] at h
        split at h
        · exact Except.noConfusion h
        · rename_i parents hl
          split at h
          · rename_i acc' hin
            exact ih _ _ _ h (ih _ _ _ hin (List.Nodup.cons hi hnd))
          · exact Except.noConfusion h
        · exact Except.noConfusion h

theorem walkIfaces_sound (env : TypeEnv) :
    ∀ fuel roots acc r, walkIfaces env fuel roots acc = .ok r →
      ∀ x ∈ r, x ∈ acc ∨ ∃ t ∈ roots, IfaceReach env t x := by
  intro fuel
  induction fuel with
  | zero => intro roots acc r h; simp [walkIfaces] at h
  | succ f ih =>
    intro roots acc r h
    match roots with
    | [] =>
      simp only [walkIfaces, Except.ok.injEq] at h
      exact fun x hx => Or.inl (h ▸ hx)
    | i :: rest =>
      simp only [walkIfaces] at h
      by_cases hi : i ∈ acc
      · rw [if_pos hi] at h
        intro x hx
        rcases ih _ _ _ h x hx with hacc | ⟨t, ht, hr⟩
        · exact Or.inl hacc
        · exact Or.inr ⟨t, List.mem_cons_of_mem _ ht, hr⟩
      · rw [if_neg hi] at h
        split at h
        · exact Except.noConfusion h
        · rename_i parents hl
          split at h
          · rename_i acc' hin
            intro x hx
            rcases ih _ _ _ h x hx with hacc' | ⟨t, ht, hr⟩
            · rcases ih _ _ _ hin x hacc' with hm | ⟨p, hp, hr⟩
              · rcases List.mem_cons.mp hm with rfl | hm'
                · exact Or.inr ⟨x, List.mem_cons_self _ _, Relation.ReflTransGen.refl⟩
                · exact Or.inl hm'
              · refine Or.inr ⟨i, List.mem_cons_self _ _, Relation.ReflTransGen.head ?_ hr⟩
                show p ∈ ifaceParents env i
                unfold ifaceParents
                rw [hl]
                exact hp
            · exact Or.inr ⟨t, List.mem_cons_of_mem _ ht, hr⟩
          · exact Except.noConfusion h
        · exact Except.noConfusion h

theorem walkIfaces_closed (env : TypeEnv) (fuel : Nat) (roots acc r : List String)
    (h : walkIfaces env fuel roots acc = .ok r) (hacc : IsClosed env acc) :
    IsClosed env r := by
  intro x hx p hp
  rcases walkIfaces_closed_or_acc env fuel roots acc r h x hx with hmem | hcl
  · exact walkIfaces_acc_subset env fuel roots acc r h (hacc x hmem p hp)
  · exact hcl p hp

theorem closed_reach (env : TypeEnv) (s : List String) (hs : IsClosed env s)
    (t x : String) (ht : t ∈ s) (hr : IfaceReach env t x) : x ∈ s := by
  induction hr with
  | refl => exact ht
  | tail _ hedge ih => exact hs _ ih _ hedge

/-- What the interface walk computes, for a parent-closed accumulator: the
accumulator united with everything reachable from the worklist. -/
theorem walkIfaces_spec (env : TypeEnv) (fuel : Nat) (roots acc r : List String)
    (h : walkIfaces env fuel roots acc = .ok r) (hacc : IsClosed env acc) :
    ∀ x, x ∈ r ↔ x ∈ acc ∨ ∃ t ∈ roots, IfaceReach env t x := by
  intro x
  constructor
  · exact walkIfaces_sound env fuel roots acc r h x
  · rintro (hx | ⟨t, ht, hr⟩)
    · exact walkIfaces_acc_subset env fuel roots acc r h hx
    · exact closed_reach env r (walkIfaces_closed env fuel roots acc r h hacc) t x
        (walkIfaces_roots_subset env fuel roots acc r h ht) hr

theorem addFromClass_props (env : TypeEnv) :
    ∀ fuel fqn acc r, addFromClass env fuel fqn acc = .ok r →
      acc ⊆ r ∧ (IsClosed env acc → IsClosed env r) ∧ (acc.Nodup → r.Nodup) := by
  intro fuel
  induction fuel with
  | zero => intro fqn acc r h; simp [addFromClass] at h
  | succ f ih =>
    intro fqn acc r h
    simp only [addFromClass] at h
    split at h
    · exact Except.noConfusion h
    · rename_i base ifaces hl
      split at h
      · rename_i acc₁ hbase
        have hstep : acc ⊆ acc₁ ∧ (IsClosed env acc → IsClosed env acc₁) ∧
            (acc.Nodup → acc₁.Nodup) := by
          split at hbase
          · rename_i b
            exact ih b acc acc₁ hbase
          · cases hbase
            exact ⟨List.Subset.refl _, fun hc => hc, fun hn => hn⟩
        refine ⟨fun x hx => walkIfaces_acc_subset env _ _ _ _ h (hstep.1 hx), ?_, ?_⟩
        · exact fun hc => walkIfaces_closed env _ _ _ _ h (hstep.2.1 hc)
        · exact fun hn => walkIfaces_nodup env _ _ _ _ h (hstep.2.2 hn)
      · exact Except.noConfusion h
    · exact Except.noConfusion h

theorem addFromInterface_props (env : TypeEnv) (fuel : Nat) (fqn : String)
    (acc r : List String) (h : addFromInterface env fuel fqn acc = .ok r) :
    acc ⊆ r ∧ (IsClosed env acc → IsClosed env r) ∧ (acc.Nodup → r.Nodup) := by
  unfold addFromInterface at h
  split at h
  · exact Except.noConfusion h
  · exact ⟨walkIfaces_acc_subset env _ _ _ _ h,
      fun hc => walkIfaces_closed env _ _ _ _ h hc,
      fun hn => walkIfaces_nodup env _ _ _ _ h hn⟩
  · exact Except.noConfusion h

/-- What `addFromInterface` computes on a parent-closed set: the strict
ancestors of the argument are added; the argument itself is not. -/
theorem addFromInterface_spec (env : TypeEnv) (fuel : Nat) (fqn : String)
    (acc r : List String) (h : addFromInterface env fuel fqn acc = .ok r)
    (hacc : IsClosed env acc) :
    ∀ x, x ∈ r ↔ x ∈ acc ∨ IfaceAncestor env fqn x := by
  unfold addFromInterface at h
  split at h
  · exact Except.noConfusion h
  · rename_i parents hl
    intro x
    rw [walkIfaces_spec env _ _ _ _ h hacc x]
    have hpar : ifaceParents env fqn = parents := by
      unfold ifaceParents
      rw [hl]
    constructor
    · rintro (hx | ⟨t, ht, hr⟩)
      · exact Or.inl hx
      · refine Or.inr ⟨t, ?_, hr⟩
        show t ∈ ifaceParents env fqn
        rw [hpar]
        exact ht
    · rintro (hx | ⟨t, ht, hr⟩)
      · exact Or.inl hx
      · refine Or.inr ⟨t, ?_, hr⟩
        rw [show (IfaceEdge env fqn t) = (t ∈ ifaceParents env fqn) from rfl, hpar] at ht
        exact ht
  · exact Except.noConfusion h

theorem addAllFromInterfaces_props (env : TypeEnv) (fuel : Nat) :
    ∀ fqns acc r, addAllFromInterfaces env fuel fqns acc = .ok r →
      acc ⊆ r ∧ (IsClosed env acc → IsClosed env r) ∧ (acc.Nodup → r.Nodup) := by
  intro fqns
  induction fqns with
  | nil =>
    intro acc r h
    simp only [addAllFromInterfaces, Except.ok.injEq] at h
    exact h ▸ ⟨List.Subset.refl _, fun hc => hc, fun hn => hn⟩
  | cons fqn rest ih =>
    intro acc r h
    simp only [addAllFromInterfaces] at h
    split at h
    · rename_i acc' hstep
      have h₁ := addFromInterface_props env fuel fqn acc acc' hstep
      have h₂ := ih acc' r h
      exact ⟨fun x hx => h₂.1 (h₁.1 hx), fun hc => h₂.2.1 (h₁.2.1 hc),
        fun hn => h₂.2.2 (h₁.2.2 hn)⟩
    · exact Except.noConfusion h

theorem addAllFromInterfaces_spec (env : TypeEnv) (fuel : Nat) :
    ∀ fqns acc r, addAllFromInterfaces env fuel fqns acc = .ok r → IsClosed env acc →
      ∀ x, x ∈ r ↔ x ∈ acc ∨ ∃ t ∈ fqns, IfaceAncestor env t x := by
  intro fqns
  induction fqns with
  | nil =>
    intro acc r h _ x
    simp only [addAllFromInterfaces, Except.ok.injEq] at h
    subst h
    simp
  | cons fqn rest ih =>
    intro acc r h hacc x
    simp only [addAllFromInterfaces] at h
    split at h
    · rename_i acc' hstep
      have hcl : IsClosed env acc' := (addFromInterface_props env fuel fqn acc acc' hstep).2.1 hacc
      rw [ih acc' r h hcl x, addFromInterface_spec env fuel fqn acc acc' hstep hacc x]
      constructor
      · rintro ((hx | ha) | ⟨t, ht, hr⟩)
        · exact Or.inl hx
        · exact Or.inr ⟨fqn, List.mem_cons_self _ _, ha⟩
        · exact Or.inr ⟨t, List.mem_cons_of_mem _ ht, hr⟩
      · rintro (hx | ⟨t, ht, hr⟩)
        · exact Or.inl (Or.inl hx)
        · rcases List.mem_cons.mp ht with rfl | ht'
          · exact Or.inl (Or.inr hr)
          · exact Or.inr ⟨t, ht', hr⟩
    · exact Except.noConfusion h

theorem mem_foldl_setInsert (l : List String) :
    ∀ acc x, x ∈ l.foldl setInsert acc ↔ x ∈ acc ∨ x ∈ l := by
  induction l with
  | nil => intro acc x; simp
  | cons a t ih =>
    intro acc x
    simp only [List.foldl_cons, ih, mem_setInsert, List.mem_cons]
    tauto

theorem mem_dedupSet (l : List String) (x : String) : x ∈ dedupSet l ↔ x ∈ l := by
  unfold dedupSet
  rw [mem_foldl_setInsert]
  simp

theorem nodup_foldl_setInsert (l : List String) :
    ∀ acc, acc.Nodup → (l.foldl setInsert acc).Nodup := by
  induction l with
  | nil => intro acc h; simpa using h
  | cons a t ih => intro acc h; exact ih _ (nodup_setInsert _ _ h)

theorem nodup_dedupSet (l : List String) : (dedupSet l).Nodup :=
  nodup_foldl_setInsert l [] List.nodup_nil

theorem mem_insertSorted (x y : String) :
    ∀ l, y ∈ insertSorted x l ↔ y = x ∨ y ∈ l := by
  intro l
  induction l with
  | nil => simp [insertSorted]
  | cons a t ih =>
    unfold insertSorted
    split
    · simp
    · simp only [List.mem_cons, ih]
      tauto

theorem mem_sortStrings (l : List String) (y : String) : y ∈ sortStrings l ↔ y ∈ l := by
  unfold sortStrings
  induction l with
  | nil => simp
  | cons a t ih =>
    simp only [List.foldr_cons, mem_insertSorted, List.mem_cons, ih]

theorem Sequence.nth_eq (s : Sequence) : ∀ n, s.nth n = s.nextValue + n * s.stride := by
  intro n
  induction n generalizing s with
  | zero => simp [Sequence.nth, Sequence.next]
  | succ m ih =>
    show s.next.2.nth m = _
    rw [ih]
    simp [Sequence.next]
    ring

theorem default_sequence_ok (env : TypeEnv) (fuel : Nat) :
    Sequence.create 10000 1 = .ok (Store.init env fuel).idSequence := rfl

/-! ## Elimination and preservation lemmas -/

theorem mergeInterfaces_fields {env : TypeEnv} {fuel : Nat} {h h' : Handle}
    {S : List String} (hm : Handle.mergeInterfaces env fuel h S = .ok h') :
    h'.classFQN = h.classFQN ∧ h'.seqNum = h.seqNum ∧ h'.object = h.object ∧
      h'.hasProxy = h.hasProxy := by
  unfold Handle.mergeInterfaces at hm
  split at hm
  · cases hm
    exact ⟨rfl, rfl, rfl, rfl⟩
  · split at hm
    · cases hm
      exact ⟨rfl, rfl, rfl, rfl⟩
    · exact Except.noConfusion hm

theorem create_fields {env : TypeEnv} {fuel : Nat} {fqn : String} {inst : Obj}
    {S : List String} {n : Nat} {h : Handle}
    (hc : Handle.create env fuel fqn inst S n = .ok h) :
    h.classFQN = fqn ∧ h.seqNum = n ∧ h.object = inst ∧ h.hasProxy = false := by
  unfold Handle.create at hc
  split at hc
  · exact Except.noConfusion hc
  · split at hc
    · exact Except.noConfusion hc
    · cases hc
      exact ⟨rfl, rfl, rfl, rfl⟩

/-- Case analysis of a successful `register`: either an existing handle was
found and merged into, or a fresh handle was created and inserted. -/
theorem register_ok_elim {s : Store} {fqn : String} {inst : Obj}
    {ifaces : List String} {r : Obj × ObjRef} {s' : Store}
    (h : Store.register s fqn inst ifaces = .ok (r, s')) :
    inst ≠ .nullRef ∧
      ((∃ addr h₀ h₁,
          s.tryGetHandle inst = some (addr, h₀) ∧
          Handle.mergeInterfaces s.env s.fuel h₀ ifaces = .ok h₁ ∧
          r = (Obj.prox h₁.object, Handle.objRef { h₁ with hasProxy := true }) ∧
          s' = { s with heap := s.heap.set addr { h₁ with hasProxy := true } }) ∨
       (∃ h₀,
          s.tryGetHandle inst = none ∧
          Handle.create s.env s.fuel fqn inst ifaces s.idSequence.nextValue = .ok h₀ ∧
          r = (Obj.prox h₀.object, Handle.objRef { h₀ with hasProxy := true }) ∧
          s' = { s with idSequence := s.idSequence.next.2,
                        heap := s.heap ++ [{ h₀ with hasProxy := true }],
                        handles := alistSet s.handles h₀.instanceId s.heap.length,
                        instanceInfo := alistSet s.instanceInfo inst s.heap.length })) := by
  unfold Store.register at h
  split at h
  · exact Except.noConfusion h
  · rename_i hnull
    refine ⟨hnull, ?_⟩
    split at h
    · rename_i addr h₀ hget
      split at h
      · rename_i h₁ hm
        simp only [Handle.mintProxy, Except.ok.injEq, Prod.mk.injEq] at h
        exact Or.inl ⟨addr, h₀, h₁, hget, hm, h.1.symm, h.2.symm⟩
      · exact Except.noConfusion h
    · rename_i hget
      split at h
      · rename_i h₀ hc
        simp only [Handle.mintProxy, Except.ok.injEq, Prod.mk.injEq] at h
        exact Or.inr ⟨h₀, hget, hc, h.1.symm, h.2.symm⟩
      · exact Except.noConfusion h

theorem storeInv_init (env : TypeEnv) (fuel : Nat) : StoreInv (Store.init env fuel) := by
  refine ⟨rfl, rfl, ?_, List.nodup_nil⟩
  intro i hi
  simp [Store.init] at hi

theorem storeInv_step (s : Store) (op : Op) (hinv : StoreInv s) : StoreInv (s.step op) := by
  obtain ⟨hstride, hnext, hseq, hnd⟩ := hinv
  cases op with
  | register fqn inst ifaces =>
    show StoreInv (match s.register fqn inst ifaces with
      | .ok (_, s') => s' | .error _ => s)
    split
    · rename_i r s' hr
      rcases (register_ok_elim hr).2 with
        ⟨addr, h₀, h₁, hget, hm, _, rfl⟩ | ⟨h₀, hget, hc, _, rfl⟩
      · refine ⟨hstride, by simpa using hnext, ?_, hnd⟩
        intro i hi
        simp only [List.length_set] at hi
        by_cases hia : addr = i
        · subst hia
          have hgeti : s.heap.get? addr = some h₀ := by
            unfold Store.tryGetHandle at hget
            split at hget
            · exact Option.noConfusion hget
            · split at hget
              · exact Option.noConfusion hget
              · rename_i h' hh
                cases hget
                exact hh
          have haddr : addr < s.heap.length := by
            rw [List.get?_eq_some] at hgeti
            exact hgeti.1
          have hval : s.heap.get ⟨addr, haddr⟩ = h₀ := by
            rw [List.get?_eq_some] at hgeti
            exact hgeti.2
          have : (s.heap.set addr { h₁ with hasProxy := true }).get ⟨addr, by simpa using hi⟩
              = { h₁ with hasProxy := true } := by
            apply List.get_set_eq
          rw [this]
          show h₁.seqNum = 10000 + addr
          rw [(mergeInterfaces_fields hm).2.1, ← hval]
          exact hseq addr haddr
        · have : (s.heap.set addr { h₁ with hasProxy := true }).get ⟨i, by simpa using hi⟩
              = s.heap.get ⟨i, hi⟩ := by
            apply List.get_set_ne
            exact hia
          rw [this]
          exact hseq i hi
      · refine ⟨hstride, ?_, ?_, hnd⟩
        · show s.idSequence.next.2.nextValue = 10000 + (s.heap ++ [_]).length
          simp [Sequence.next, hnext, hstride]
          omega
        · intro i hi
          simp only [List.length_append, List.length_cons, List.length_nil] at hi
          by_cases hlt : i < s.heap.length
          · have : (s.heap ++ [{ h₀ with hasProxy := true }]).get ⟨i, by simpa using hi⟩
                = s.heap.get ⟨i, hlt⟩ := by
              apply List.get_append
            rw [this]
            exact hseq i hlt
          · have hieq : i = s.heap.length := by omega
            subst hieq
            have : (s.heap ++ [{ h₀ with hasProxy := true }]).get ⟨s.heap.length, by simpa⟩
                = { h₀ with hasProxy := true } := by
              simp [List.get_append_right]
            rw [this]
            show h₀.seqNum = 10000 + s.heap.length
            rw [(create_fields hc).2.1, hnext]
    · exact ⟨hstride, hnext, hseq, hnd⟩
  | delete id =>
    show StoreInv (match s.deleteRef id with | .ok s' => s' | .error _ => s)
    split
    · rename_i s' hd
      unfold Store.deleteRef at hd
      split at hd
      · rename_i h hh
        split at hd
        · exact Except.noConfusion hd
        · cases hd
          exact ⟨hstride, hnext, hseq, hnd⟩
      · cases hd
        exact ⟨hstride, hnext, hseq, hnd⟩
    · exact ⟨hstride, hnext, hseq, hnd⟩
  | dereference id =>
    show StoreInv (match s.dereference id with | .ok (_, s') => s' | .error _ => s)
    split
    · rename_i r s' hd
      unfold Store.dereference at hd
      split at hd
      · exact Except.noConfusion hd
      · rename_i addr haddr
        split at hd
        · exact Except.noConfusion hd
        · rename_i h hh
          cases hd
          refine ⟨hstride, by simpa using hnext, ?_, hnd⟩
          intro i hi
          simp only [List.length_set] at hi
          by_cases hia : addr = i
          · subst hia
            have haddrlt : addr < s.heap.length := by
              rw [List.get?_eq_some] at hh
              exact hh.1
            have hval : s.heap.get ⟨addr, haddrlt⟩ = h := by
              rw [List.get?_eq_some] at hh
              exact hh.2
            have : (s.heap.set addr h.mintProxy.2).get ⟨addr, by simpa using hi⟩
                = h.mintProxy.2 := by
              apply List.get_set_eq
            rw [this]
            show h.seqNum = 10000 + addr
            rw [← hval]
            exact hseq addr haddrlt
          · have : (s.heap.set addr h.mintProxy.2).get ⟨i, by simpa using hi⟩
                = s.heap.get ⟨i, hi⟩ := by
              apply List.get_set_ne
              exact hia
            rw [this]
            exact hseq i hi
    · exact ⟨hstride, hnext, hseq, hnd⟩
  | registerType t f =>
    show StoreInv (match s.registerType t f with | .ok s' => s' | .error _ => s)
    split
    · rename_i s' hd
      unfold Store.registerType at hd
      split at hd
      · split at hd
        · cases hd
          exact ⟨hstride, hnext, hseq, hnd⟩
        · exact Except.noConfusion hd
      · cases hd
        exact ⟨hstride, hnext, hseq, hnd⟩
    · exact ⟨hstride, hnext, hseq, hnd⟩
  | proxyCollected a =>
    show StoreInv (s.proxyCollected a)
    unfold Store.proxyCollected
    split
    · exact ⟨hstride, hnext, hseq, hnd⟩
    · rename_i h hh
      refine ⟨hstride, by simpa using hnext, ?_, hnd⟩
      intro i hi
      simp only [List.length_set] at hi
      by_cases hia : a = i
      · subst hia
        have haddrlt : a < s.heap.length := by
          rw [List.get?_eq_some] at hh
          exact hh.1
        have hval : s.heap.get ⟨a, haddrlt⟩ = h := by
          rw [List.get?_eq_some] at hh
          exact hh.2
        have : (s.heap.set a { h with hasProxy := false }).get ⟨a, by simpa using hi⟩
            = { h with hasProxy := false } := by
          apply List.get_set_eq
        rw [this]
        show h.seqNum = 10000 + a
        rw [← hval]
        exact hseq a haddrlt
      · have : (s.heap.set a { h with hasProxy := false }).get ⟨i, by simpa using hi⟩
            = s.heap.get ⟨i, hi⟩ := by
          apply List.get_set_ne
          exact hia
        rw [this]
        exact hseq i hi
  | proxyFinalizedCb a =>
    show StoreInv (s.onProxyFinalized a)
    unfold Store.onProxyFinalized
    split
    · exact ⟨hstride, hnext, hseq, hnd⟩
    · exact ⟨hstride, hnext, hseq, nodup_setInsert _ _ hnd⟩
  | drain =>
    exact ⟨hstride, hnext, hseq, List.nodup_nil⟩

theorem storeInv_run (env : TypeEnv) (fuel : Nat) (ops : List Op) :
    StoreInv (Store.run (Store.init env fuel) ops) := by
  have base := storeInv_init env fuel
  rw [Store.run]
  generalize Store.init env fuel = s at base ⊢
  induction ops generalizing s with
  | nil => exact base
  | cons op rest ih =>
    rw [List.foldl_cons]
    exact ih _ (storeInv_step s op base)

/-! ## Heap access lemmas -/

theorem get?_set_self {α : Type} :
    ∀ (l : List α) (i : Nat) (a : α), i < l.length → (l.set i a).get? i = some a := by
  intro l
  induction l with
  | nil => intro i a h; simp at h
  | cons x tl ih =>
    intro i a h
    cases i with
    | zero => rfl
    | succ j =>
      show (tl.set j a).get? j = some a
      exact ih j a (by simpa using h)

theorem get?_set_ne {α : Type} :
    ∀ (l : List α) (i j : Nat) (a : α), i ≠ j → (l.set i a).get? j = l.get? j := by
  intro l
  induction l with
  | nil => intro i j a _; simp
  | cons x tl ih =>
    intro i j a hne
    cases i with
    | zero =>
      cases j with
      | zero => exact absurd rfl hne
      | succ k => rfl
    | succ i' =>
      cases j with
      | zero => rfl
      | succ k =>
        show (tl.set i' a).get? k = tl.get? k
        exact ih i' k a (fun hc => hne (by rw [hc]))

theorem get?_set_some {α : Type} (l : List α) (i j : Nat) (a : α) {x : α}
    (h : l.get? j = some x) : ∃ y, (l.set i a).get? j = some y := by
  by_cases hij : i = j
  · subst hij
    have hlt : i < l.length := by
      rw [List.get?_eq_some] at h
      exact h.1
    exact ⟨a, get?_set_self l i a hlt⟩
  · exact ⟨x, by rw [get?_set_ne l i j a hij]; exact h⟩

theorem get?_append_left {α : Type} :
    ∀ (l₁ l₂ : List α) (i : Nat), i < l₁.length → (l₁ ++ l₂).get? i = l₁.get? i := by
  intro l₁
  induction l₁ with
  | nil => intro l₂ i h; simp at h
  | cons x tl ih =>
    intro l₂ i h
    cases i with
    | zero => rfl
    | succ j =>
      show (tl ++ l₂).get? j = tl.get? j
      exact ih l₂ j (by simpa using h)

theorem get?_append_length {α : Type} :
    ∀ (l : List α) (a : α), (l ++ [a]).get? l.length = some a := by
  intro l a
  induction l with
  | nil => rfl
  | cons x tl ih => exact ih

/-! ## Merge-loop decomposition -/

theorem mergeLoop_elim (env : TypeEnv) (fuel : Nat) :
    ∀ (S : List String) (d p d' p' : List String),
      mergeLoop env fuel S (d, p) = .ok (d', p') →
      (∀ x, x ∈ d' ↔ x ∈ d ∨ x ∈ S) ∧
      addAllFromInterfaces env fuel S p = .ok p' ∧
      (d.Nodup → d'.Nodup) := by
  intro S
  induction S with
  | nil =>
    intro d p d' p' h
    simp only [mergeLoop, Except.ok.injEq, Prod.mk.injEq] at h
    obtain ⟨rfl, rfl⟩ := h
    exact ⟨fun x => by simp, rfl, fun hn => hn⟩
  | cons fqn rest ih =>
    intro d p d' p' h
    simp only [mergeLoop] at h
    split at h
    · rename_i p₀ hstep
      obtain ⟨hmem, hall, hnd⟩ := ih (setInsert d fqn) p₀ d' p' h
      refine ⟨?_, ?_, ?_⟩
      · intro x
        rw [hmem x, mem_setInsert]
        simp [List.mem_cons]
        tauto
      · simp only [addAllFromInterfaces, hstep]
        exact hall
      · exact fun hn => hnd (nodup_setInsert d fqn hn)
    · exact Except.noConfusion h

/-- Elimination of a successful `mergeInterfaces`. -/
theorem mergeInterfaces_elim {env : TypeEnv} {fuel : Nat} {h h' : Handle}
    {S : List String} (hm : Handle.mergeInterfaces env fuel h S = .ok h') :
    (S = [] ∧ h' = h) ∨
    (∃ d' p', mergeLoop env fuel S (h.declaredInterfaces, h.providedInterfaces) = .ok (d', p') ∧
      h' = { h with declaredInterfaces := d'.filter (fun x => !decide (x ∈ p')),
                    providedInterfaces := p' }) := by
  unfold Handle.mergeInterfaces at hm
  split at hm
  · rename_i hS
    cases hm
    exact Or.inl ⟨hS, rfl⟩
  · split at hm
    · rename_i d' p' hloop
      cases hm
      exact Or.inr ⟨d', p', hloop, rfl⟩
    · exact Except.noConfusion hm

/-- Elimination of a successful `Handle.create`. -/
theorem create_elim {env : TypeEnv} {fuel : Nat} {fqn : String} {inst : Obj}
    {S : List String} {n : Nat} {h : Handle}
    (hc : Handle.create env fuel fqn inst S n = .ok h) :
    ∃ p₀ p, newInterfaceCollection env fuel fqn = .ok p₀ ∧
      addAllFromInterfaces env fuel (dedupSet S) p₀ = .ok p ∧
      h = { classFQN := fqn, seqNum := n, object := inst, hasProxy := false,
            declaredInterfaces := (dedupSet S).filter (fun x => !decide (x ∈ p)),
            providedInterfaces := p } := by
  unfold Handle.create at hc
  split at hc
  · exact Except.noConfusion hc
  · rename_i p₀ h₀
    split at hc
    · exact Except.noConfusion hc
    · rename_i p hall
      cases hc
      exact ⟨p₀, p, h₀, hall, rfl⟩

/-- The class-closure seed of a new collection is parent-closed. -/
theorem newInterfaceCollection_closed {env : TypeEnv} {fuel : Nat} {fqn : String}
    {p₀ : List String} (h : newInterfaceCollection env fuel fqn = .ok p₀) :
    IsClosed env p₀ ∧ p₀.Nodup := by
  unfold newInterfaceCollection at h
  split at h
  · cases h
    exact ⟨fun x hx => absurd hx (List.not_mem_nil x), List.nodup_nil⟩
  · have := addFromClass_props env fuel fqn [] p₀ h
    exact ⟨this.2.1 (fun x hx => absurd hx (List.not_mem_nil x)), this.2.2 List.nodup_nil⟩

/-- Elimination of a successful `dereference`. -/
theorem dereference_ok_elim {s : Store} {id : String}
    {res : String × Obj × List String} {s' : Store}
    (h : s.dereference id = .ok (res, s')) :
    ∃ addr hh, alistLookup s.handles id = some addr ∧ s.heap.get? addr = some hh ∧
      res = (hh.classFQN, .prox hh.object, hh.interfaces) ∧
      s' = { s with heap := s.heap.set addr { hh with hasProxy := true } } := by
  unfold Store.dereference at h
  split at h
  · exact Except.noConfusion h
  · rename_i addr haddr
    split at h
    · exact Except.noConfusion h
    · rename_i hh hheap
      simp only [Handle.mintProxy, Except.ok.injEq, Prod.mk.injEq] at h
      exact ⟨addr, hh, haddr, hheap, h.1.symm, h.2.symm⟩

/-! ## Claim theorems -/

/-- C1: `finalizedInstanceIds()` returns exactly the instance IDs in the
`finalized` set whose handle has no live proxy at call time (IDs whose
handle was already deleted included), each exactly once; the set is
cleared, so an immediately following call returns the empty list; and an
ID for which `dereference` minted a new proxy beforehand is not returned.
The last conjunct shows `finalized` never holds duplicates in any
reachable store, so "exactly once" applies to every call of the running
system. -/
theorem c1_finalized_instance_ids (s : Store) (id : String)
    (res : String × Obj × List String) (s' : Store) :
    (id ∈ s.finalizedInstanceIds.1 ↔ id ∈ s.finalized ∧ s.hasProxyAt id = false) ∧
    (s.getHandle id = none → (id ∈ s.finalizedInstanceIds.1 ↔ id ∈ s.finalized)) ∧
    (s.finalized.Nodup → id ∈ s.finalizedInstanceIds.1 →
      s.finalizedInstanceIds.1.count id = 1) ∧
    s.finalizedInstanceIds.2.finalized = [] ∧
    s.finalizedInstanceIds.2.finalizedInstanceIds.1 = [] ∧
    (s.dereference id = .ok (res, s') → id ∉ s'.finalizedInstanceIds.1) ∧
    (∀ env fuel ops, (Store.run (Store.init env fuel) ops).finalized.Nodup) := by
  have hmem : ∀ (t : Store) (x : String),
      x ∈ t.finalizedInstanceIds.1 ↔ x ∈ t.finalized ∧ t.hasProxyAt x = false := by
    intro t x
    show x ∈ t.finalized.filter (fun iid => !(t.hasProxyAt iid)) ↔ _
    rw [List.mem_filter]
    simp [Bool.not_eq_true']
  refine ⟨hmem s id, ?_, ?_, rfl, rfl, ?_, ?_⟩
  · intro hnone
    rw [hmem s id]
    unfold Store.hasProxyAt
    rw [hnone]
    simp
  · intro hnd hin
    have : s.finalizedInstanceIds.1.Nodup := List.Nodup.filter _ hnd
    exact List.count_eq_one_of_mem this hin
  · intro hderef hin
    obtain ⟨addr, hh, haddr, hheap, _, rfl⟩ := dereference_ok_elim hderef
    rw [hmem _ id] at hin
    have hlt : addr < s.heap.length := by
      rw [List.get?_eq_some] at hheap
      exact hheap.1
    have hget' : Store.getHandle
        { s with heap := s.heap.set addr { hh with hasProxy := true } } id
        = some { hh with hasProxy := true } := by
      show (match alistLookup s.handles id with
        | none => none
        | some a => (s.heap.set addr { hh with hasProxy := true }).get? a)
          = some { hh with hasProxy := true }
      rw [haddr]
      exact get?_set_self _ _ _ hlt
    have hproxy : Store.hasProxyAt
        { s with heap := s.heap.set addr { hh with hasProxy := true } } id = true := by
      unfold Store.hasProxyAt
      rw [hget']
    rw [hin.2] at hproxy
    exact Bool.noConfusion hproxy
  · intro env fuel ops
    exact (storeInv_run env fuel ops).2.2.2

/-- C1 witness: a run registers `Foo` and `Bar`, both proxies die and are
finalized, `Bar` is deleted; the drain then reports both IDs, `Foo@10000`
exactly once, and the deleted `Bar@10001` is counted through the
deleted-handle conjunct. -/
theorem c1_finalized_instance_ids_witness :
    (Store.run (Store.init envW 10)
      [.register "Foo" (.real 0) [], .register "Bar" (.real 1) [],
       .proxyCollected 0, .proxyFinalizedCb 0, .proxyCollected 1, .proxyFinalizedCb 1,
       .delete "Bar@10001"]).finalized.Nodup ∧
    (Store.run (Store.init envW 10)
      [.register "Foo" (.real 0) [], .register "Bar" (.real 1) [],
       .proxyCollected 0, .proxyFinalizedCb 0, .proxyCollected 1, .proxyFinalizedCb 1,
       .delete "Bar@10001"]).getHandle "Bar@10001" = none ∧
    "Foo@10000" ∈ (Store.run (Store.init envW 10)
      [.register "Foo" (.real 0) [], .register "Bar" (.real 1) [],
       .proxyCollected 0, .proxyFinalizedCb 0, .proxyCollected 1, .proxyFinalizedCb 1,
       .delete "Bar@10001"]).finalizedInstanceIds.1 ∧
    (Store.run (Store.init envW 10)
      [.register "Foo" (.real 0) [], .register "Bar" (.real 1) [],
       .proxyCollected 0, .proxyFinalizedCb 0, .proxyCollected 1, .proxyFinalizedCb 1,
       .delete "Bar@10001"]).finalizedInstanceIds.1.count "Foo@10000" = 1 :=
  ⟨by decide, by decide, by decide,
    (c1_finalized_instance_ids
      (Store.run (Store.init envW 10)
        [.register "Foo" (.real 0) [], .register "Bar" (.real 1) [],
         .proxyCollected 0, .proxyFinalizedCb 0, .proxyCollected 1, .proxyFinalizedCb 1,
         .delete "Bar@10001"]) "Foo@10000" ("", .nullRef, []) (Store.init envW 10)).2.2.1
      (by decide) (by decide)⟩

/-- C2: deleting an instance ID whose handle exists and has a live proxy
fails with `StillReachable` and leaves the store unchanged (no `unmanaged`
event); deleting one whose handle exists without a live proxy removes the
handle from the map and emits `unmanaged`. -/
theorem c2_delete_still_reachable (s : Store) (id : String) (h : Handle) :
    (s.getHandle id = some h → h.hasProxy = true →
      s.deleteRef id = .error (.stillReachable id) ∧ Store.step s (.delete id) = s) ∧
    (s.getHandle id = some h → h.hasProxy = false →
      ∃ s', s.deleteRef id = .ok s' ∧
        s'.getHandle id = none ∧
        s'.events = s.events ++ [.unmanaged id] ∧
        s'.heap = s.heap ∧ s'.instanceInfo = s.instanceInfo ∧
        s'.finalized = s.finalized ∧ s'.idSequence = s.idSequence) := by
  constructor
  · intro hget hproxy
    have herr : s.deleteRef id = .error (.stillReachable id) := by
      unfold Store.deleteRef
      rw [hget]
      simp [hproxy]
    refine ⟨herr, ?_⟩
    show (match s.deleteRef id with | .ok s' => s' | .error _ => s) = s
    rw [herr]
  · intro hget hproxy
    have hok : s.deleteRef id = .ok { s with
        handles := alistErase s.handles id,
        events := s.events ++ [.unmanaged id] } := by
      unfold Store.deleteRef
      rw [hget]
      simp [hproxy]
    refine ⟨_, hok, ?_, rfl, rfl, rfl, rfl, rfl⟩
    unfold Store.getHandle
    show (match alistLookup (alistErase s.handles id) id with
      | none => none
      | some addr => s.heap.get? addr) = none
    rw [alistLookup_erase_self]

/-- C2 witness: after registering `Foo` its proxy is live, so `del` fails
with `StillReachable` and the store is unchanged; once the proxy is
collected, `del` succeeds, removes the handle and emits `unmanaged`. -/
theorem c2_delete_still_reachable_witness :
    ((Store.run (Store.init envW 10) [.register "Foo" (.real 0) []]).deleteRef "Foo@10000"
        = .error (.stillReachable "Foo@10000") ∧
      Store.step (Store.run (Store.init envW 10) [.register "Foo" (.real 0) []])
        (.delete "Foo@10000")
        = Store.run (Store.init envW 10) [.register "Foo" (.real 0) []]) ∧
    (∃ s', (Store.run (Store.init envW 10)
        [.register "Foo" (.real 0) [], .proxyCollected 0]).deleteRef "Foo@10000" = .ok s' ∧
      s'.getHandle "Foo@10000" = none ∧
      s'.events = (Store.run (Store.init envW 10)
        [.register "Foo" (.real 0) [], .proxyCollected 0]).events ++ [.unmanaged "Foo@10000"] ∧
      s'.heap = (Store.run (Store.init envW 10)
        [.register "Foo" (.real 0) [], .proxyCollected 0]).heap ∧
      s'.instanceInfo = (Store.run (Store.init envW 10)
        [.register "Foo" (.real 0) [], .proxyCollected 0]).instanceInfo ∧
      s'.finalized = (Store.run (Store.init envW 10)
        [.register "Foo" (.real 0) [], .proxyCollected 0]).finalized ∧
      s'.idSequence = (Store.run (Store.init envW 10)
        [.register "Foo" (.real 0) [], .proxyCollected 0]).idSequence) :=
  ⟨(c2_delete_still_reachable
      (Store.run (Store.init envW 10) [.register "Foo" (.real 0) []]) "Foo@10000"
      { classFQN := "Foo", seqNum := 10000, object := .real 0, hasProxy := true,
        declaredInterfaces := [], providedInterfaces := [] }).1 (by decide) rfl,
   (c2_delete_still_reachable
      (Store.run (Store.init envW 10) [.register "Foo" (.real 0) [], .proxyCollected 0])
      "Foo@10000"
      { classFQN := "Foo", seqNum := 10000, object := .real 0, hasProxy := false,
        declaredInterfaces := [], providedInterfaces := [] }).2 (by decide) rfl⟩

/-- C3 counterexample: deleting an instance ID that never existed returns
successfully (a silent no-op) instead of failing with `UnknownReference`,
refuting the delete half of the claim at the concrete input `"X"` on a
fresh store. -/
theorem c3_counterexample :
    (Store.init [] 10).deleteRef "X" = .ok (Store.init [] 10) := rfl

/-- C3 amended: `dereference` of an instance ID with no live handle fails
with `UnknownReference`; `delete` of an instance ID with no live handle
(never registered or already deleted) is a silent successful no-op that
emits nothing, rather than failing with `UnknownReference`. -/
theorem c3_unknown_reference (s : Store) (id : String) :
    (alistLookup s.handles id = none → s.dereference id = .error (.unknownReference id)) ∧
    (s.getHandle id = none →
      s.deleteRef id = .ok s ∧ Store.step s (.delete id) = s) := by
  constructor
  · intro hnone
    unfold Store.dereference
    rw [hnone]
  · intro hnone
    have hok : s.deleteRef id = .ok s := by
      unfold Store.deleteRef
      rw [hnone]
    refine ⟨hok, ?_⟩
    show (match s.deleteRef id with | .ok s' => s' | .error _ => s) = s
    rw [hok]

/-- C3 witness: on a fresh store, dereferencing and deleting the unknown
ID `"X"` behave as the amended claim states. -/
theorem c3_unknown_reference_witness :
    (Store.init [] 10).dereference "X" = .error (.unknownReference "X") ∧
    (Store.init [] 10).deleteRef "X" = .ok (Store.init [] 10) ∧
    Store.step (Store.init [] 10) (.delete "X") = Store.init [] 10 :=
  ⟨(c3_unknown_reference (Store.init [] 10) "X").1 rfl,
   ((c3_unknown_reference (Store.init [] 10) "X").2 rfl).1,
   ((c3_unknown_reference (Store.init [] 10) "X").2 rfl).2⟩

/-- C9 counterexample: `registerType` called a second time on the same type
object with the same FQN succeeds (the property-descriptor validation
accepts an identical redefinition), refuting "calling registerType a
second time on the same type object throws a TypeError" at the concrete
input of registering address 0 as `"A"` twice. -/
theorem c9_counterexample :
    (Store.init [] 10).registerType 0 "A" =
      .ok { Store.init [] 10 with typeMarkers := [(0, "A")] } ∧
    ({ Store.init [] 10 with typeMarkers := [(0, "A")] } : Store).registerType 0 "A" =
      .ok { Store.init [] 10 with typeMarkers := [(0, "A")] } := ⟨rfl, rfl⟩

/-- C9 amended: `registerType` installs the FQN marker; re-registering the
same type object with a different FQN throws a `TypeError` and the first
FQN remains in effect; re-registering with the same FQN is a no-op; and
`typeFQN` returns the FQN registered for the value's constructor, or none
when none was registered. -/
theorem c9_register_type (s : Store) (t : Nat) (f g : String) (v : JsObject) :
    (alistLookup s.typeMarkers t = none →
      s.registerType t f = .ok { s with typeMarkers := alistSet s.typeMarkers t f } ∧
      Store.typeFQN { s with typeMarkers := alistSet s.typeMarkers t f } ⟨t⟩ = some f) ∧
    (alistLookup s.typeMarkers t = some f → f ≠ g →
      s.registerType t g = .error (.typeError t) ∧
      Store.step s (.registerType t g) = s ∧ s.typeFQN ⟨t⟩ = some f) ∧
    (alistLookup s.typeMarkers t = some f → s.registerType t f = .ok s) ∧
    (alistLookup s.typeMarkers v.ctor = some f → s.typeFQN v = some f) ∧
    (alistLookup s.typeMarkers v.ctor = none → s.typeFQN v = none) := by
  refine ⟨?_, ?_, ?_, ?_, ?_⟩
  · intro hnone
    constructor
    · unfold Store.registerType
      rw [hnone]
    · unfold Store.typeFQN
      exact alistLookup_set_self s.typeMarkers t f
  · intro hsome hne
    have herr : s.registerType t g = .error (.typeError t) := by
      unfold Store.registerType
      rw [hsome]
      simp [hne]
    refine ⟨herr, ?_, ?_⟩
    · show (match s.registerType t g with | .ok s' => s' | .error _ => s) = s
      rw [herr]
    · unfold Store.typeFQN
      exact hsome
  · intro hsome
    unfold Store.registerType
    rw [hsome]
    simp
  · intro hsome
    unfold Store.typeFQN
    exact hsome
  · intro hnone
    unfold Store.typeFQN
    exact hnone

/-- C9 witness: registering address 0 as `"A"`, then attempting `"B"` on
the same address fails with a `TypeError` while `typeFQN` keeps answering
`"A"`; an unregistered constructor yields none. -/
theorem c9_register_type_witness :
    ((Store.init [] 10).registerType 0 "A" =
      .ok { Store.init [] 10 with typeMarkers := [(0, "A")] }) ∧
    (({ Store.init [] 10 with typeMarkers := [(0, "A")] } : Store).registerType 0 "B" =
      .error (.typeError 0)) ∧
    Store.typeFQN { Store.init [] 10 with typeMarkers := [(0, "A")] } ⟨0⟩ = some "A" ∧
    Store.typeFQN (Store.init [] 10) ⟨7⟩ = none :=
  ⟨((c9_register_type (Store.init [] 10) 0 "A" "B" ⟨0⟩).1 rfl).1,
   (((c9_register_type { Store.init [] 10 with typeMarkers := [(0, "A")] } 0 "A" "B" ⟨0⟩).2.1
      rfl (by decide)).1),
   (((c9_register_type { Store.init [] 10 with typeMarkers := [(0, "A")] } 0 "A" "B" ⟨0⟩).2.1
      rfl (by decide)).2.2),
   ((c9_register_type (Store.init [] 10) 0 "A" "B" ⟨7⟩).2.2.2.2 rfl)⟩

theorem getHandle_elim {s : Store} {id : String} {h : Handle}
    (hg : s.getHandle id = some h) :
    ∃ a, alistLookup s.handles id = some a ∧ s.heap.get? a = some h := by
  unfold Store.getHandle at hg
  split at hg
  · exact Option.noConfusion hg
  · rename_i a ha
    exact ⟨a, ha, hg⟩

theorem getHandle_intro {s : Store} {id : String} {a : Nat} {h : Handle}
    (h1 : alistLookup s.handles id = some a) (h2 : s.heap.get? a = some h) :
    s.getHandle id = some h := by
  unfold Store.getHandle
  rw [h1]
  exact h2

theorem proxyCollected_handles (s : Store) (a : Nat) :
    (s.proxyCollected a).handles = s.handles := by
  unfold Store.proxyCollected
  split <;> rfl

theorem proxyCollected_get?_some (s : Store) (a j : Nat) {x : Handle}
    (h : s.heap.get? j = some x) : ∃ y, (s.proxyCollected a).heap.get? j = some y := by
  unfold Store.proxyCollected
  split
  · exact ⟨x, h⟩
  · exact get?_set_some _ _ _ _ h

theorem onProxyFinalized_handles (s : Store) (a : Nat) :
    (s.onProxyFinalized a).handles = s.handles := by
  unfold Store.onProxyFinalized
  split <;> rfl

theorem onProxyFinalized_heap (s : Store) (a : Nat) :
    (s.onProxyFinalized a).heap = s.heap := by
  unfold Store.onProxyFinalized
  split <;> rfl

theorem dereference_total {s : Store} {id : String} {a : Nat} {h : Handle}
    (h1 : alistLookup s.handles id = some a) (h2 : s.heap.get? a = some h) :
    s.dereference id = .ok ((h.classFQN, .prox h.object, h.interfaces),
      { s with heap := s.heap.set a { h with hasProxy := true } }) := by
  unfold Store.dereference
  simp only [h1, h2]
  rfl

/-- C6: the finalization callback performs no kernel mutation beyond
inserting the handle's instance ID into the `finalized` set and emitting
`releasable` (maps, heap, sequence and markers untouched); after a proxy
dies and the callback runs, the handle is still registered and
dereferenceable; and no transition other than an explicit delete ever
removes a handle from the `handles` map. -/
theorem c6_callback_no_mutation (s : Store) (addr : Nat) (op : Op) (id : String) :
    (s.onProxyFinalized addr).handles = s.handles ∧
    (s.onProxyFinalized addr).heap = s.heap ∧
    (s.onProxyFinalized addr).instanceInfo = s.instanceInfo ∧
    (s.onProxyFinalized addr).idSequence = s.idSequence ∧
    (s.onProxyFinalized addr).typeMarkers = s.typeMarkers ∧
    (∀ h, s.heap.get? addr = some h →
      (s.onProxyFinalized addr).finalized = setInsert s.finalized h.instanceId ∧
      (s.onProxyFinalized addr).events = s.events ++ [.releasable h.instanceId]) ∧
    (∀ h, s.getHandle id = some h →
      ∃ res s₂, ((s.proxyCollected addr).onProxyFinalized addr).dereference id
        = .ok (res, s₂)) ∧
    ((∀ rid, op ≠ .delete rid) → ∀ h, s.getHandle id = some h →
      ∃ h', (Store.step s op).getHandle id = some h') := by
  refine ⟨onProxyFinalized_handles s addr, onProxyFinalized_heap s addr, ?_, ?_, ?_, ?_, ?_, ?_⟩
  · unfold Store.onProxyFinalized
    split <;> rfl
  · unfold Store.onProxyFinalized
    split <;> rfl
  · unfold Store.onProxyFinalized
    split <;> rfl
  · intro h hh
    unfold Store.onProxyFinalized
    rw [hh]
    exact ⟨rfl, rfl⟩
  · intro h hg
    obtain ⟨a, h1, h2⟩ := getHandle_elim hg
    obtain ⟨y, hy⟩ := proxyCollected_get?_some s addr a h2
    have h1' : alistLookup ((s.proxyCollected addr).onProxyFinalized addr).handles id
        = some a := by
      rw [onProxyFinalized_handles, proxyCollected_handles]
      exact h1
    have h2' : ((s.proxyCollected addr).onProxyFinalized addr).heap.get? a = some y := by
      rw [onProxyFinalized_heap]
      exact hy
    exact ⟨_, _, dereference_total h1' h2'⟩
  · intro hop h hg
    obtain ⟨a, h1, h2⟩ := getHandle_elim hg
    cases op with
    | register fqn inst ifaces =>
      show ∃ h', (Store.getHandle (match s.register fqn inst ifaces with
        | .ok (_, s') => s' | .error _ => s) id) = some h'
      split
      · rename_i r s' hr
        rcases (register_ok_elim hr).2 with
          ⟨addr', h₀, h₁, hget, hm, _, rfl⟩ | ⟨h₀, hget, hc, _, rfl⟩
        · obtain ⟨y, hy⟩ := get?_set_some s.heap addr' a { h₁ with hasProxy := true } h2
          exact ⟨y, getHandle_intro h1 hy⟩
        · by_cases hid : Handle.instanceId h₀ = id
          · have hl1 : alistLookup (alistSet s.handles h₀.instanceId s.heap.length) id
                = some s.heap.length := by
              rw [← hid]
              exact alistLookup_set_self s.handles h₀.instanceId s.heap.length
            have hl2 : (s.heap ++ [{ h₀ with hasProxy := true }]).get? s.heap.length
                = some { h₀ with hasProxy := true } := get?_append_length s.heap _
            exact ⟨{ h₀ with hasProxy := true }, getHandle_intro hl1 hl2⟩
          · have halt : a < s.heap.length := by
              rw [List.get?_eq_some] at h2
              exact h2.1
            have hl1 : alistLookup (alistSet s.handles h₀.instanceId s.heap.length) id
                = some a := by
              rw [alistLookup_set_other s.handles h₀.instanceId id s.heap.length hid]
              exact h1
            have hl2 : (s.heap ++ [{ h₀ with hasProxy := true }]).get? a = some h := by
              rw [get?_append_left s.heap _ a halt]
              exact h2
            exact ⟨h, getHandle_intro hl1 hl2⟩
      · exact ⟨h, hg⟩
    | delete rid => exact absurd rfl (hop rid)
    | dereference rid =>
      show ∃ h', (Store.getHandle (match s.dereference rid with
        | .ok (_, s') => s' | .error _ => s) id) = some h'
      split
      · rename_i r s' hr
        obtain ⟨a', hh', _, _, _, rfl⟩ := dereference_ok_elim hr
        obtain ⟨y, hy⟩ := get?_set_some s.heap a' a { hh' with hasProxy := true } h2
        exact ⟨y, getHandle_intro h1 hy⟩
      · exact ⟨h, hg⟩
    | registerType t f =>
      show ∃ h', (Store.getHandle (match s.registerType t f with
        | .ok s' => s' | .error _ => s) id) = some h'
      split
      · rename_i s' hr
        unfold Store.registerType at hr
        split at hr
        · split at hr
          · cases hr
            exact ⟨h, hg⟩
          · exact Except.noConfusion hr
        · cases hr
          exact ⟨h, getHandle_intro h1 h2⟩
      · exact ⟨h, hg⟩
    | proxyCollected a' =>
      show ∃ h', Store.getHandle (s.proxyCollected a') id = some h'
      obtain ⟨y, hy⟩ := proxyCollected_get?_some s a' a h2
      refine ⟨y, getHandle_intro ?_ hy⟩
      rw [proxyCollected_handles]
      exact h1
    | proxyFinalizedCb a' =>
      show ∃ h', Store.getHandle (s.onProxyFinalized a') id = some h'
      have hl1 : alistLookup (s.onProxyFinalized a').handles id = some a := by
        rw [onProxyFinalized_handles]
        exact h1
      have hl2 : (s.onProxyFinalized a').heap.get? a = some h := by
        rw [onProxyFinalized_heap]
        exact h2
      exact ⟨h, getHandle_intro hl1 hl2⟩
    | drain => exact ⟨h, getHandle_intro h1 h2⟩

/-- C6 witness: after `Foo`'s proxy dies and the callback fires, the handle
is still present, the callback only inserted the ID and emitted
`releasable`, and a register transition does not evict it either. -/
theorem c6_callback_no_mutation_witness :
    ((Store.run (Store.init envW 10)
        [.register "Foo" (.real 0) [], .proxyCollected 0]).onProxyFinalized 0).finalized
      = setInsert (Store.run (Store.init envW 10)
        [.register "Foo" (.real 0) [], .proxyCollected 0]).finalized "Foo@10000" ∧
    (∃ res s₂,
      (((Store.run (Store.init envW 10)
          [.register "Foo" (.real 0) []]).proxyCollected 0).onProxyFinalized 0).dereference
        "Foo@10000" = .ok (res, s₂)) ∧
    (∃ h', (Store.step (Store.run (Store.init envW 10)
        [.register "Foo" (.real 0) [], .proxyCollected 0, .proxyFinalizedCb 0])
        (.register "Bar" (.real 1) [])).getHandle "Foo@10000" = some h') :=
  ⟨((c6_callback_no_mutation (Store.run (Store.init envW 10)
      [.register "Foo" (.real 0) [], .proxyCollected 0]) 0
      (.register "Bar" (.real 1) []) "Foo@10000").2.2.2.2.2.1
      { classFQN := "Foo", seqNum := 10000, object := .real 0, hasProxy := false,
        declaredInterfaces := [], providedInterfaces := [] } (by decide)).1,
   ((c6_callback_no_mutation (Store.run (Store.init envW 10)
      [.register "Foo" (.real 0) []]) 0 (.register "Bar" (.real 1) []) "Foo@10000").2.2.2.2.2.2.1
      { classFQN := "Foo", seqNum := 10000, object := .real 0, hasProxy := true,
        declaredInterfaces := [], providedInterfaces := [] } (by decide)),
   ((c6_callback_no_mutation (Store.run (Store.init envW 10)
      [.register "Foo" (.real 0) [], .proxyCollected 0, .proxyFinalizedCb 0]) 0
      (.register "Bar" (.real 1) []) "Foo@10000").2.2.2.2.2.2.2
      (fun rid => by simp)
      { classFQN := "Foo", seqNum := 10000, object := .real 0, hasProxy := false,
        declaredInterfaces := [], providedInterfaces := [] } (by decide))⟩

/-- C7: registering a fresh non-null instance allocates `Foo@10000` from
the sequence, inserts the handle into both maps and returns a live proxy
(`hasProxy` is true on return) — but the `events` log stays empty: no
`managed(instanceId)` event is emitted, although the `ObjectStoreEvents`
documentation describes `managed` as "emitted when a new object starts
being managed". This evaluates the code at the failing input of the claim. -/
theorem c7_register_no_managed_event :
    Store.register (Store.init envW 10) "Foo" (.real 0) [] =
      .ok ((.prox (.real 0), { ref := "Foo@10000", interfaces := none }),
        { env := envW, fuel := 10, idSequence := { stride := 1, nextValue := 10001 },
          heap := [{ classFQN := "Foo", seqNum := 10000, object := .real 0, hasProxy := true,
                     declaredInterfaces := [], providedInterfaces := [] }],
          handles := [("Foo@10000", 0)], instanceInfo := [(.real 0, 0)],
          typeMarkers := [], finalized := [], events := [] }) ∧
    (Store.step (Store.init envW 10) (.register "Foo" (.real 0) [])).events = [] ∧
    (Store.step (Store.init envW 10) (.register "Foo" (.real 0) [])).getHandle "Foo@10000"
      = some { classFQN := "Foo", seqNum := 10000, object := .real 0, hasProxy := true,
               declaredInterfaces := [], providedInterfaces := [] } ∧
    (Store.step (Store.init envW 10) (.register "Foo" (.real 0) [])).hasProxyAt "Foo@10000"
      = true ∧
    alistLookup (Store.step (Store.init envW 10)
      (.register "Foo" (.real 0) [])).instanceInfo (.real 0) = some 0 ∧
    (Event.managed "Foo@10000") ∉
      (Store.step (Store.init envW 10) (.register "Foo" (.real 0) [])).events := by
  refine ⟨rfl, by decide, by decide, by decide, by decide, by decide⟩

theorem instanceId_congr {h h' : Handle} (hc : h'.classFQN = h.classFQN)
    (hs : h'.seqNum = h.seqNum) : h'.instanceId = h.instanceId := by
  unfold Handle.instanceId
  rw [hc, hs]

theorem create_declared_nodup {env : TypeEnv} {fuel : Nat} {fqn : String} {inst : Obj}
    {S : List String} {n : Nat} {h : Handle}
    (hc : Handle.create env fuel fqn inst S n = .ok h) : h.declaredInterfaces.Nodup := by
  obtain ⟨p₀, p, _, _, rfl⟩ := create_elim hc
  exact List.Nodup.filter _ (nodup_dedupSet S)

theorem mergeInterfaces_nodup {env : TypeEnv} {fuel : Nat} {h h' : Handle}
    {S : List String} (hm : Handle.mergeInterfaces env fuel h S = .ok h')
    (hnd : h.declaredInterfaces.Nodup) : h'.declaredInterfaces.Nodup := by
  rcases mergeInterfaces_elim hm with ⟨_, rfl⟩ | ⟨d', p', hloop, rfl⟩
  · exact hnd
  · exact List.Nodup.filter _ ((mergeLoop_elim env fuel S _ _ d' p' hloop).2.2 hnd)

theorem mergeInterfaces_mem {env : TypeEnv} {fuel : Nat} {h h' : Handle}
    {S : List String} (hm : Handle.mergeInterfaces env fuel h S = .ok h') :
    ∀ x ∈ S, x ∈ h'.declaredInterfaces ∨ x ∈ h'.providedInterfaces := by
  rcases mergeInterfaces_elim hm with ⟨rfl, rfl⟩ | ⟨d', p', hloop, rfl⟩
  · intro x hx
    exact absurd hx (List.not_mem_nil x)
  · intro x hx
    have hxd : x ∈ d' := ((mergeLoop_elim env fuel S _ _ d' p' hloop).1 x).mpr (Or.inr hx)
    by_cases hxp : x ∈ p'
    · exact Or.inr hxp
    · refine Or.inl ?_
      show x ∈ d'.filter (fun y => !decide (y ∈ p'))
      rw [List.mem_filter]
      exact ⟨hxd, by simp [hxp]⟩

/-- C4: register is idempotent on the real referent. Registering the same
real object `x` a second time, or registering the proxy `P` returned by the
first registration, finds the existing handle: no second handle or
instance ID is created (heap length and handle map unchanged), the new
interface FQNs are merged without duplication, and the same `instanceId`
is returned; moreover `realObject P = x` and `refObject P = refObject x`. -/
theorem c4_register_idempotent (s : Store) (n : Nat) (fqn fqn₂ fqn₃ : String)
    (S₁ S₂ S₃ : List String) (r₁ r₂ r₃ : Obj × ObjRef) (s₁ s₂ s₃ : Store)
    (h0 : s.tryGetHandle (.real n) = none)
    (h1 : s.register fqn (.real n) S₁ = .ok (r₁, s₁))
    (h2 : s₁.register fqn₂ (.real n) S₂ = .ok (r₂, s₂))
    (h3 : s₂.register fqn₃ r₁.1 S₃ = .ok (r₃, s₃)) :
    r₂.2.ref = r₁.2.ref ∧ r₃.2.ref = r₁.2.ref ∧
    s₂.heap.length = s₁.heap.length ∧ s₃.heap.length = s₁.heap.length ∧
    s₂.handles = s₁.handles ∧ s₃.handles = s₁.handles ∧
    realObject r₁.1 = .real n ∧
    s₂.refObject r₁.1 = s₂.refObject (.real n) ∧
    (∀ h', s₂.getHandle r₂.2.ref = some h' →
      h'.declaredInterfaces.Nodup ∧
      (∀ x ∈ S₂, x ∈ h'.declaredInterfaces ∨ x ∈ h'.providedInterfaces)) := by
  rcases (register_ok_elim h1).2 with
    ⟨addr, H₀, H₁, hget, _, _, _⟩ | ⟨H₀, _, hc, hr₁, rfl⟩
  · rw [h0] at hget
    exact Option.noConfusion hget
  · obtain ⟨hfqn, hseq, hobj, hpx⟩ := create_fields hc
    have L := s.heap.length
    have hget₁ : Store.tryGetHandle
        { s with idSequence := s.idSequence.next.2,
                 heap := s.heap ++ [{ H₀ with hasProxy := true }],
                 handles := alistSet s.handles H₀.instanceId s.heap.length,
                 instanceInfo := alistSet s.instanceInfo (Obj.real n) s.heap.length }
        (Obj.real n) = some (s.heap.length, { H₀ with hasProxy := true }) := by
      show (match alistLookup (alistSet s.instanceInfo (Obj.real n) s.heap.length)
          (Obj.real n) with
        | none => none
        | some addr =>
          match (s.heap ++ [{ H₀ with hasProxy := true }]).get? addr with
          | none => none
          | some h => some (addr, h)) = _
      rw [alistLookup_set_self]
      show (match (s.heap ++ [{ H₀ with hasProxy := true }]).get? s.heap.length with
        | none => none
        | some h => some (s.heap.length, h)) = _
      rw [get?_append_length]
    rcases (register_ok_elim h2).2 with
      ⟨addr₂, H₀₂, H₁₂, hget₂, hm₂, hr₂, rfl⟩ | ⟨H₀₂, hget₂, _, _, _⟩
    · rw [hget₁] at hget₂
      have haddr₂ : addr₂ = s.heap.length ∧ H₀₂ = { H₀ with hasProxy := true } := by
        have := Option.some.inj hget₂
        exact ⟨(Prod.mk.injEq _ _ _ _ ▸ this).1.symm, (Prod.mk.injEq _ _ _ _ ▸ this).2.symm⟩
      obtain ⟨rfl, rfl⟩ := haddr₂
      obtain ⟨hfqn₂, hseq₂, hobj₂, _⟩ := mergeInterfaces_fields hm₂
      have hlen₁ : s.heap.length < (s.heap ++ [{ H₀ with hasProxy := true }]).length := by
        simp
      have hget₂' : Store.tryGetHandle
          { s with idSequence := s.idSequence.next.2,
                   heap := (s.heap ++ [{ H₀ with hasProxy := true }]).set s.heap.length
                     { H₁₂ with hasProxy := true },
                   handles := alistSet s.handles H₀.instanceId s.heap.length,
                   instanceInfo := alistSet s.instanceInfo (Obj.real n) s.heap.length }
          (Obj.real n) = some (s.heap.length, { H₁₂ with hasProxy := true }) := by
        show (match alistLookup (alistSet s.instanceInfo (Obj.real n) s.heap.length)
            (Obj.real n) with
          | none => none
          | some addr =>
            match ((s.heap ++ [{ H₀ with hasProxy := true }]).set s.heap.length
                { H₁₂ with hasProxy := true }).get? addr with
            | none => none
            | some h => some (addr, h)) = _
        rw [alistLookup_set_self]
        show (match ((s.heap ++ [{ H₀ with hasProxy := true }]).set s.heap.length
            { H₁₂ with hasProxy := true }).get? s.heap.length with
          | none => none
          | some h => some (s.heap.length, h)) = _
        rw [get?_set_self _ _ _ hlen₁]
      have hr₁1 : r₁.1 = Obj.prox (Obj.real n) := by
        rw [hr₁, ← hobj]
      rcases (register_ok_elim h3).2 with
        ⟨addr₃, H₀₃, H₁₃, hget₃, hm₃, hr₃, rfl⟩ | ⟨H₀₃, hget₃, _, _, _⟩
      · rw [hr₁1] at hget₃
        have hget₃2 : some (s.heap.length, { H₁₂ with hasProxy := true })
            = some (addr₃, H₀₃) := hget₂'.symm.trans hget₃
        have haddr₃ : addr₃ = s.heap.length ∧ H₀₃ = { H₁₂ with hasProxy := true } := by
          have := Option.some.inj hget₃2
          exact ⟨(Prod.mk.injEq _ _ _ _ ▸ this).1.symm, (Prod.mk.injEq _ _ _ _ ▸ this).2.symm⟩
        obtain ⟨rfl, rfl⟩ := haddr₃
        obtain ⟨hfqn₃, hseq₃, _, _⟩ := mergeInterfaces_fields hm₃
        refine ⟨?_, ?_, ?_, ?_, rfl, rfl, ?_, ?_, ?_⟩
        · rw [hr₂, hr₁]
          exact instanceId_congr (by simpa using hfqn₂) (by simpa using hseq₂)
        · rw [hr₃, hr₁]
          exact instanceId_congr (by simp [hfqn₃, hfqn₂]) (by simp [hseq₃, hseq₂])
        · simp
        · simp
        · rw [hr₁1]
          rfl
        · rw [hr₁1]
          rfl
        · intro h' hgot
          have hid₂ : r₂.2.ref = H₀.instanceId := by
            rw [hr₂]
            exact instanceId_congr (by simpa using hfqn₂) (by simpa using hseq₂)
          have hlook : Store.getHandle
              { s with idSequence := s.idSequence.next.2,
                       heap := (s.heap ++ [{ H₀ with hasProxy := true }]).set s.heap.length
                         { H₁₂ with hasProxy := true },
                       handles := alistSet s.handles H₀.instanceId s.heap.length,
                       instanceInfo := alistSet s.instanceInfo (Obj.real n) s.heap.length }
              r₂.2.ref = some { H₁₂ with hasProxy := true } := by
            apply getHandle_intro (a := s.heap.length)
            · rw [hid₂]
              exact alistLookup_set_self _ _ _
            · exact get?_set_self _ _ _ hlen₁
          rw [hlook] at hgot
          have hh' : h' = { H₁₂ with hasProxy := true } := (Option.some.inj hgot).symm
          subst hh'
          have hnd₀ : H₀.declaredInterfaces.Nodup := create_declared_nodup hc
          constructor
          · show H₁₂.declaredInterfaces.Nodup
            exact mergeInterfaces_nodup hm₂ hnd₀
          · intro x hx
            show x ∈ H₁₂.declaredInterfaces ∨ x ∈ H₁₂.providedInterfaces
            exact mergeInterfaces_mem hm₂ x hx
      · rw [hr₁1] at hget₃
        exact Option.noConfusion (hget₂'.symm.trans hget₃)
    · rw [hget₁] at hget₂
      exact Option.noConfusion hget₂

/-- C4 witness: registering the real object, then the same object with an
extra interface, then the returned proxy, always yields `C@10000`, with no
second handle created and the handle map untouched. -/
theorem c4_register_idempotent_witness :
    ({ ref := "C@10000", interfaces := some ["IA"] } : ObjRef).ref
      = ({ ref := "C@10000", interfaces := none } : ObjRef).ref ∧
    ({ ref := "C@10000", interfaces := some ["IB"] } : ObjRef).ref
      = ({ ref := "C@10000", interfaces := none } : ObjRef).ref ∧
    (Store.step (Store.step (Store.init envCI 10) (.register "C" (.real 0) []))
        (.register "C" (.real 0) ["IA"])).handles
      = (Store.step (Store.init envCI 10) (.register "C" (.real 0) [])).handles ∧
    (Store.step (Store.step (Store.init envCI 10) (.register "C" (.real 0) []))
        (.register "C" (.real 0) ["IA"])).heap.length
      = (Store.step (Store.init envCI 10) (.register "C" (.real 0) [])).heap.length ∧
    realObject (Obj.prox (.real 0)) = .real 0 := by
  have happ := c4_register_idempotent (Store.init envCI 10) 0 "C" "C" "C" [] ["IA"] ["IB"]
    (.prox (.real 0), { ref := "C@10000", interfaces := none })
    (.prox (.real 0), { ref := "C@10000", interfaces := some ["IA"] })
    (.prox (.real 0), { ref := "C@10000", interfaces := some ["IB"] })
    (Store.step (Store.init envCI 10) (.register "C" (.real 0) []))
    (Store.step (Store.step (Store.init envCI 10) (.register "C" (.real 0) []))
      (.register "C" (.real 0) ["IA"]))
    (Store.step (Store.step (Store.step (Store.init envCI 10) (.register "C" (.real 0) []))
      (.register "C" (.real 0) ["IA"])) (.register "C" (.prox (.real 0)) ["IB"]))
    rfl rfl rfl rfl
  exact ⟨happ.1, happ.2.1, happ.2.2.2.2.1, happ.2.2.1, happ.2.2.2.2.2.2.1⟩

/-- C5 counterexample: constructing a handle for an anonymous object
(`classFQN = Object`, empty class closure) with declared interfaces
`[IB]`, where `IB extends IA`, yields `declared = [IB]` and
`provided = [IA]`. Then `IA` is in `declared ∪ provided` but not in
`closure(classFQN) ∪ S = [] ∪ [IB]`, refuting the claimed equation
`declared ∪ provided = closure(classFQN) ∪ S` at this concrete input. -/
theorem c5_counterexample :
    Handle.create envI 10 "Object" (.real 0) ["IB"] 10000 =
      .ok { classFQN := "Object", seqNum := 10000, object := .real 0, hasProxy := false,
            declaredInterfaces := ["IB"], providedInterfaces := ["IA"] } ∧
    newInterfaceCollection envI 10 "Object" = .ok [] ∧
    "IA" ∈ ((["IB"] : List String) ++ ["IA"]) ∧
    "IA" ∉ (([] : List String) ++ ["IB"]) :=
  ⟨rfl, rfl, by decide, by decide⟩

/-- C5 amended: after construction and after every successful merge,
`declared ∩ provided = ∅`; and `declared ∪ provided` equals
`closure(classFQN) ∪ S` together with the transitive parent interfaces of
the members of `S` (for a merge: the previous `declared ∪ provided`
together with `S` and the transitive parents of its members) — the parent
interfaces of `S` were missing from the claimed equation. The concrete
scenario of the claim does hold: merging `[IB, IA]`, where `IB extends
IA`, into a handle registered with `[IA]` leaves `interfaces()` returning
`["IB"]` only. -/
theorem c5_interface_minimisation (env : TypeEnv) (fuel : Nat) :
    (∀ fqn inst S n h, Handle.create env fuel fqn inst S n = .ok h →
      (∀ x, ¬(x ∈ h.declaredInterfaces ∧ x ∈ h.providedInterfaces)) ∧
      IsClosed env h.providedInterfaces ∧
      (∀ p₀, newInterfaceCollection env fuel fqn = .ok p₀ →
        ∀ x, (x ∈ h.declaredInterfaces ∨ x ∈ h.providedInterfaces) ↔
          (x ∈ S ∨ x ∈ p₀ ∨ ∃ t ∈ S, IfaceAncestor env t x))) ∧
    (∀ g S' g', Handle.mergeInterfaces env fuel g S' = .ok g' →
      (∀ x, ¬(x ∈ g.declaredInterfaces ∧ x ∈ g.providedInterfaces)) →
      IsClosed env g.providedInterfaces →
      (∀ x, ¬(x ∈ g'.declaredInterfaces ∧ x ∈ g'.providedInterfaces)) ∧
      IsClosed env g'.providedInterfaces ∧
      (∀ x, (x ∈ g'.declaredInterfaces ∨ x ∈ g'.providedInterfaces) ↔
        (x ∈ g.declaredInterfaces ∨ x ∈ g.providedInterfaces ∨ x ∈ S' ∨
          ∃ t ∈ S', IfaceAncestor env t x))) ∧
    (∀ g, Handle.create envI 10 "Object" (.real 0) ["IA"] 10000 = .ok g →
      ∀ g', Handle.mergeInterfaces envI 10 g ["IB", "IA"] = .ok g' →
        g'.interfaces = ["IB"]) := by
  refine ⟨?_, ?_, ?_⟩
  · intro fqn inst S n h hc
    obtain ⟨p₀, p, hnic, hall, rfl⟩ := create_elim hc
    have hcl₀ := newInterfaceCollection_closed hnic
    have hclp : IsClosed env p := (addAllFromInterfaces_props env fuel _ _ _ hall).2.1 hcl₀.1
    refine ⟨?_, hclp, ?_⟩
    · intro x ⟨hxd, hxp⟩
      have hxd2 : x ∈ (dedupSet S).filter (fun y => !decide (y ∈ p)) := hxd
      rw [List.mem_filter] at hxd2
      simp only [Bool.not_eq_true', decide_eq_false_iff_not] at hxd2
      exact hxd2.2 hxp
    · intro p₀' hnic'
      have hp₀ : p₀' = p₀ := by
        rw [hnic] at hnic'
        exact (Except.ok.inj hnic').symm
      rw [hp₀]
      intro x
      have hspec := addAllFromInterfaces_spec env fuel (dedupSet S) p₀ p hall hcl₀.1 x
      constructor
      · rintro (hxd | hxp)
        · have hxd2 : x ∈ (dedupSet S).filter (fun y => !decide (y ∈ p)) := hxd
          rw [List.mem_filter] at hxd2
          exact Or.inl ((mem_dedupSet S x).mp hxd2.1)
        · rcases hspec.mp hxp with hx₀ | ⟨t, ht, ha⟩
          · exact Or.inr (Or.inl hx₀)
          · exact Or.inr (Or.inr ⟨t, (mem_dedupSet S t).mp ht, ha⟩)
      · rintro (hxS | hx₀ | ⟨t, ht, ha⟩)
        · by_cases hxp : x ∈ p
          · exact Or.inr hxp
          · refine Or.inl ?_
            show x ∈ (dedupSet S).filter (fun y => !decide (y ∈ p))
            rw [List.mem_filter]
            exact ⟨(mem_dedupSet S x).mpr hxS, by simp [hxp]⟩
        · exact Or.inr (hspec.mpr (Or.inl hx₀))
        · exact Or.inr (hspec.mpr (Or.inr ⟨t, (mem_dedupSet S t).mpr ht, ha⟩))
  · intro g S' g' hm hdis hcl
    rcases mergeInterfaces_elim hm with ⟨hS, rfl⟩ | ⟨d', p', hloop, rfl⟩
    · subst hS
      refine ⟨hdis, hcl, ?_⟩
      intro x
      constructor
      · intro hx
        rcases hx with hx | hx
        · exact Or.inl hx
        · exact Or.inr (Or.inl hx)
      · rintro (hx | hx | hx | ⟨t, ht, _⟩)
        · exact Or.inl hx
        · exact Or.inr hx
        · exact absurd hx (List.not_mem_nil x)
        · exact absurd ht (List.not_mem_nil t)
    · obtain ⟨hmemd, hallp, _⟩ := mergeLoop_elim env fuel S' _ _ d' p' hloop
      have hclp' : IsClosed env p' :=
        (addAllFromInterfaces_props env fuel _ _ _ hallp).2.1 hcl
      refine ⟨?_, hclp', ?_⟩
      · intro x ⟨hxd, hxp⟩
        have hxd2 : x ∈ d'.filter (fun y => !decide (y ∈ p')) := hxd
        rw [List.mem_filter] at hxd2
        simp only [Bool.not_eq_true', decide_eq_false_iff_not] at hxd2
        exact hxd2.2 hxp
      · intro x
        have hspec := addAllFromInterfaces_spec env fuel S' _ p' hallp hcl x
        constructor
        · rintro (hxd | hxp)
          · have hxd2 : x ∈ d'.filter (fun y => !decide (y ∈ p')) := hxd
            rw [List.mem_filter] at hxd2
            rcases (hmemd x).mp hxd2.1 with hx | hx
            · exact Or.inl hx
            · exact Or.inr (Or.inr (Or.inl hx))
          · rcases hspec.mp hxp with hx | ⟨t, ht, ha⟩
            · exact Or.inr (Or.inl hx)
            · exact Or.inr (Or.inr (Or.inr ⟨t, ht, ha⟩))
        · have hpsub : ∀ y, y ∈ g.providedInterfaces → y ∈ p' :=
            fun y hy => (addAllFromInterfaces_props env fuel _ _ _ hallp).1 hy
          rintro (hx | hx | hx | ⟨t, ht, ha⟩)
          · by_cases hxp : x ∈ p'
            · exact Or.inr hxp
            · refine Or.inl ?_
              show x ∈ d'.filter (fun y => !decide (y ∈ p'))
              rw [List.mem_filter]
              exact ⟨(hmemd x).mpr (Or.inl hx), by simp [hxp]⟩
          · exact Or.inr (hpsub x hx)
          · by_cases hxp : x ∈ p'
            · exact Or.inr hxp
            · refine Or.inl ?_
              show x ∈ d'.filter (fun y => !decide (y ∈ p'))
              rw [List.mem_filter]
              exact ⟨(hmemd x).mpr (Or.inr hx), by simp [hxp]⟩
          · exact Or.inr (hspec.mpr (Or.inr ⟨t, ht, ha⟩))
  · intro g hg g' hg'
    have hgc : Handle.create envI 10 "Object" (.real 0) ["IA"] 10000 =
        .ok { classFQN := "Object", seqNum := 10000, object := .real 0, hasProxy := false,
              declaredInterfaces := ["IA"], providedInterfaces := [] } := rfl
    rw [hgc] at hg
    have hgeq := Except.ok.inj hg
    subst hgeq
    have hgm : Handle.mergeInterfaces envI 10
        { classFQN := "Object", seqNum := 10000, object := .real 0, hasProxy := false,
          declaredInterfaces := ["IA"], providedInterfaces := [] } ["IB", "IA"] =
        .ok { classFQN := "Object", seqNum := 10000, object := .real 0, hasProxy := false,
              declaredInterfaces := ["IB"], providedInterfaces := ["IA"] } := rfl
    rw [hgm] at hg'
    have hgeq' := Except.ok.inj hg'
    subst hgeq'
    rfl

/-- C5 witness: for the fresh handle of the counterexample environment,
disjointness holds, and the claim's own merge scenario produces
`interfaces() = ["IB"]`. -/
theorem c5_interface_minimisation_witness :
    (¬("IB" ∈ (["IB"] : List String) ∧ "IB" ∈ (["IA"] : List String))) ∧
    Handle.interfaces
      { classFQN := "Object", seqNum := 10000, object := .real 0, hasProxy := false,
        declaredInterfaces := ["IB"], providedInterfaces := ["IA"] }
      = ["IB"] :=
  ⟨((c5_interface_minimisation envI 10).1 "Object" (.real 0) ["IB"] 10000
      { classFQN := "Object", seqNum := 10000, object := .real 0, hasProxy := false,
        declaredInterfaces := ["IB"], providedInterfaces := ["IA"] } rfl).1 "IB",
   (c5_interface_minimisation envI 10).2.2
      { classFQN := "Object", seqNum := 10000, object := .real 0, hasProxy := false,
        declaredInterfaces := ["IA"], providedInterfaces := [] } rfl
      { classFQN := "Object", seqNum := 10000, object := .real 0, hasProxy := false,
        declaredInterfaces := ["IB"], providedInterfaces := ["IA"] } rfl⟩

/-- C8: the sequence returns `origin + n * stride` on its `(n+1)`-th call
for valid parameters (`origin ≥ 0` by the `Nat` domain, `stride > 0` by
the constructor check); in any run of a store, the handles created carry
strictly increasing sequence numbers starting at 10000 (stride 1), their
instance IDs `«classFQN»@«n»` are pairwise distinct, and — since the heap
remembers every handle ever created, including deleted ones — an instance
ID is never reused even after deletion. -/
theorem c8_sequence_monotonic_ids (origin stride : Nat) (seq : Sequence) (env : TypeEnv)
    (fuel : Nat) (ops : List Op) :
    (Sequence.create origin stride = .ok seq → ∀ k, seq.nth k = origin + k * stride) ∧
    (∀ i j, (hi : i < (Store.run (Store.init env fuel) ops).heap.length) →
      (hj : j < (Store.run (Store.init env fuel) ops).heap.length) → i < j →
      ((Store.run (Store.init env fuel) ops).heap.get ⟨i, hi⟩).seqNum
        < ((Store.run (Store.init env fuel) ops).heap.get ⟨j, hj⟩).seqNum) ∧
    (∀ i j, (hi : i < (Store.run (Store.init env fuel) ops).heap.length) →
      (hj : j < (Store.run (Store.init env fuel) ops).heap.length) → i ≠ j →
      ((Store.run (Store.init env fuel) ops).heap.get ⟨i, hi⟩).instanceId
        ≠ ((Store.run (Store.init env fuel) ops).heap.get ⟨j, hj⟩).instanceId) ∧
    (∀ hz : 0 < (Store.run (Store.init env fuel) ops).heap.length,
      ((Store.run (Store.init env fuel) ops).heap.get ⟨0, hz⟩).seqNum = 10000) ∧
    (∀ i, (hi : i < (Store.run (Store.init env fuel) ops).heap.length) →
      ((Store.run (Store.init env fuel) ops).heap.get ⟨i, hi⟩).instanceId
        = ((Store.run (Store.init env fuel) ops).heap.get ⟨i, hi⟩).classFQN
            ++ "@" ++ decimalRepr (10000 + i)) := by
  obtain ⟨hstride, hnext, hseq, hnd⟩ := storeInv_run env fuel ops
  refine ⟨?_, ?_, ?_, ?_, ?_⟩
  · intro hcr k
    unfold Sequence.create at hcr
    split at hcr
    · exact Except.noConfusion hcr
    · have hseq' := Except.ok.inj hcr
      subst hseq'
      exact Sequence.nth_eq _ k
  · intro i j hi hj hij
    rw [hseq i hi, hseq j hj]
    omega
  · intro i j hi hj hij heq
    unfold Handle.instanceId at heq
    have := instanceId_suffix_inj _ _ _ _ heq
    rw [hseq i hi, hseq j hj] at this
    omega
  · intro hz
    exact hseq 0 hz
  · intro i hi
    unfold Handle.instanceId
    rw [hseq i hi]

/-- C8 witness: a sequence with origin 2 and stride 3 yields 8 on its third
call; two registrations in one store produce `Foo@10000` and `Bar@10001`,
whose IDs differ and whose sequence numbers strictly increase. -/
theorem c8_sequence_monotonic_ids_witness :
    Sequence.create 2 3 = .ok { stride := 3, nextValue := 2 } ∧
    ({ stride := 3, nextValue := 2 } : Sequence).nth 2 = 2 + 2 * 3 ∧
    ((Store.run (Store.init envW 10)
        [.register "Foo" (.real 0) [], .register "Bar" (.real 1) []]).heap.get
        ⟨0, by decide⟩).seqNum
      < ((Store.run (Store.init envW 10)
        [.register "Foo" (.real 0) [], .register "Bar" (.real 1) []]).heap.get
        ⟨1, by decide⟩).seqNum ∧
    ((Store.run (Store.init envW 10)
        [.register "Foo" (.real 0) [], .register "Bar" (.real 1) []]).heap.get
        ⟨0, by decide⟩).instanceId
      ≠ ((Store.run (Store.init envW 10)
        [.register "Foo" (.real 0) [], .register "Bar" (.real 1) []]).heap.get
        ⟨1, by decide⟩).instanceId :=
  ⟨rfl,
   (c8_sequence_monotonic_ids 2 3 { stride := 3, nextValue := 2 } envW 10
      [.register "Foo" (.real 0) [], .register "Bar" (.real 1) []]).1 rfl 2,
   (c8_sequence_monotonic_ids 2 3 { stride := 3, nextValue := 2 } envW 10
      [.register "Foo" (.real 0) [], .register "Bar" (.real 1) []]).2.1 0 1
      (by decide) (by decide) (by decide),
   (c8_sequence_monotonic_ids 2 3 { stride := 3, nextValue := 2 } envW 10
      [.register "Foo" (.real 0) [], .register "Bar" (.real 1) []]).2.2.1 0 1
      (by decide) (by decide) (by decide)⟩

/-! ## Host-side drain lemmas -/

theorem alistLookup_erase_sub {α β : Type} [DecidableEq α] {l : List (α × β)} {k k' : α}
    {v : β} (h : alistLookup (alistErase l k) k' = some v) : alistLookup l k' = some v := by
  by_cases hk : k = k'
  · subst hk
    rw [alistLookup_erase_self] at h
    exact Option.noConfusion h
  · rw [alistLookup_erase_other l k k' hk] at h
    exact h

theorem alistLookup_erase_none {α β : Type} [DecidableEq α] {l : List (α × β)} {k k' : α}
    (h : alistLookup l k' = none) : alistLookup (alistErase l k) k' = none := by
  by_cases hk : k = k'
  · subst hk
    exact alistLookup_erase_self l k
  · rw [alistLookup_erase_other l k k' hk]
    exact h

/-- What one drain pass guarantees: a duplicate-free result whose members
have been removed from both maps, drawn from the reference-to-ID map, with
both maps only shrinking. -/
theorem drainAux_spec :
    ∀ (queue : List Nat) (rii : List (Nat × String)) (obj : List (String × JHandle))
      (res : List String),
      (∀ r₁ r₂ v, alistLookup rii r₁ = some v → alistLookup rii r₂ = some v → r₁ = r₂) →
      (∀ v ∈ res, (∀ r, ¬ alistLookup rii r = some v) ∧ alistLookup obj v = none) →
      res.Nodup →
      ((drainAux queue rii obj res).1.Nodup ∧
       (∀ r₁ r₂ v, alistLookup (drainAux queue rii obj res).2.1 r₁ = some v →
          alistLookup (drainAux queue rii obj res).2.1 r₂ = some v → r₁ = r₂) ∧
       (∀ v ∈ (drainAux queue rii obj res).1,
          (∀ r, ¬ alistLookup (drainAux queue rii obj res).2.1 r = some v) ∧
          alistLookup (drainAux queue rii obj res).2.2 v = none) ∧
       (∀ v ∈ (drainAux queue rii obj res).1, v ∈ res ∨ ∃ r, alistLookup rii r = some v) ∧
       (∀ r v, alistLookup (drainAux queue rii obj res).2.1 r = some v →
          alistLookup rii r = some v) ∧
       (∀ v h, alistLookup (drainAux queue rii obj res).2.2 v = some h →
          alistLookup obj v = some h) ∧
       (∀ v, alistLookup obj v = none →
          alistLookup (drainAux queue rii obj res).2.2 v = none)) := by
  intro queue
  induction queue with
  | nil =>
    intro rii obj res hB hres hnd
    exact ⟨hnd, hB, hres, fun v hv => Or.inl hv, fun r v h => h, fun v h hh => hh,
      fun v h => h⟩
  | cons ref rest ih =>
    intro rii obj res hB hres hnd
    show (drainAux (ref :: rest) rii obj res).1.Nodup ∧ _
    simp only [drainAux]
    cases hl : alistLookup rii ref with
    | none =>
      exact ih rii obj res hB hres hnd
    | some iid =>
      have hB₂ : ∀ r₁ r₂ v, alistLookup (alistErase rii ref) r₁ = some v →
          alistLookup (alistErase rii ref) r₂ = some v → r₁ = r₂ :=
        fun r₁ r₂ v h₁ h₂ => hB r₁ r₂ v (alistLookup_erase_sub h₁) (alistLookup_erase_sub h₂)
      have hres₂ : ∀ v ∈ setInsert res iid,
          (∀ r, ¬ alistLookup (alistErase rii ref) r = some v) ∧
          alistLookup (alistErase obj iid) v = none := by
        intro v hv
        rcases (mem_setInsert res iid v).mp hv with rfl | hv'
        · refine ⟨?_, alistLookup_erase_self obj v⟩
          intro r hr
          have hr' := alistLookup_erase_sub hr
          have hrref : r = ref := hB r ref v hr' hl
          subst hrref
          rw [alistLookup_erase_self] at hr
          exact Option.noConfusion hr
        · exact ⟨fun r hr => (hres v hv').1 r (alistLookup_erase_sub hr),
            alistLookup_erase_none (hres v hv').2⟩
      have hnd₂ : (setInsert res iid).Nodup := nodup_setInsert res iid hnd
      obtain ⟨c₁, c₂, c₃, c₄, c₅, c₆, c₇⟩ :=
        ih (alistErase rii ref) (alistErase obj iid) (setInsert res iid) hB₂ hres₂ hnd₂
      refine ⟨c₁, c₂, c₃, ?_, ?_, ?_, ?_⟩
      · intro v hv
        rcases c₄ v hv with hv' | ⟨r, hr⟩
        · rcases (mem_setInsert res iid v).mp hv' with rfl | hv''
          · exact Or.inr ⟨ref, hl⟩
          · exact Or.inl hv''
        · exact Or.inr ⟨r, alistLookup_erase_sub hr⟩
      · exact fun r v h => alistLookup_erase_sub (c₅ r v h)
      · exact fun v h hh => alistLookup_erase_sub (c₆ v h hh)
      · exact fun v h => c₇ v (alistLookup_erase_none h)

/-- Invariant of the empty table. -/
theorem jinv_init : JInv JStore.init [] [] := by
  refine ⟨?_, ?_, ?_, ?_, ?_, ?_⟩
  · intro r v h
    exact Option.noConfusion h
  · intro r₁ r₂ v h₁
    exact Option.noConfusion h₁
  · intro v hv
    exact absurd hv (List.not_mem_nil v)
  · intro v h hl
    exact Option.noConfusion hl
  · intro v hv
    exact absurd hv (List.not_mem_nil v)
  · exact List.nodup_nil

theorem regIds_cons (op : JOp) (rest : List JOp) :
    regIds (op :: rest)
      = (match op with | .register id => [id] | _ => []) ++ regIds rest := by
  cases op <;> rfl

theorem objSet_C (obj : List (String × JHandle)) (reported : List String) (id : String)
    (h h' : JHandle) (hC : ∀ v ∈ reported, alistLookup obj v = none)
    (hl : alistLookup obj id = some h) :
    ∀ v ∈ reported, alistLookup (alistSet obj id h') v = none := by
  intro v hv
  by_cases he : id = v
  · subst he
    exfalso
    rw [hC id hv] at hl
    exact Option.noConfusion hl
  · rw [alistLookup_set_other obj id v h' he]
    exact hC v hv

theorem objSet_F (obj : List (String × JHandle)) (registered : List String) (id : String)
    (h h' : JHandle) (hF : ∀ v hh, alistLookup obj v = some hh → v ∈ registered)
    (hl : alistLookup obj id = some h) :
    ∀ v hh, alistLookup (alistSet obj id h') v = some hh → v ∈ registered := by
  intro v hh hv
  by_cases he : id = v
  · subst he
    exact hF id h hl
  · rw [alistLookup_set_other obj id v h' he] at hv
    exact hF v hh hv

/-- One transition preserves the host-table invariant; the IDs drained by
the transition are freshly reported. -/
theorem jstep_inv (s : JStore) (op : JOp) (registered reported : List String)
    (hinv : JInv s registered reported)
    (hfresh : ∀ id, op = JOp.register id → id ∉ registered) :
    ∃ registered',
      JInv (s.step op).1 registered' (reported ++ (s.step op).2) ∧
      registered ⊆ registered' ∧
      (∀ x ∈ registered', x ∈ registered ∨ op = .register x) := by
  obtain ⟨hA, hB, hC, hF, hRR, hRN⟩ := hinv
  cases op with
  | register id =>
    have hns : id ∉ registered := hfresh id rfl
    cases hl : alistLookup s.objectsById id with
    | some h => exact absurd (hF id h hl) hns
    | none =>
      have hreg : s.register id = .ok { s with
          objectsById := alistSet s.objectsById id
            { instanceId := id, refId := s.nextRefId, hasStrong := true, weakAlive := true },
          referenceInstanceId := alistSet s.referenceInstanceId s.nextRefId id,
          nextRefId := s.nextRefId + 1 } := by
        unfold JStore.register
        rw [hl]
      have hstep : s.step (.register id) = ({ s with
          objectsById := alistSet s.objectsById id
            { instanceId := id, refId := s.nextRefId, hasStrong := true, weakAlive := true },
          referenceInstanceId := alistSet s.referenceInstanceId s.nextRefId id,
          nextRefId := s.nextRefId + 1 }, []) := by
        show ((match s.register id with | .ok s' => s' | .error _ => s), []) = _
        rw [hreg]
      refine ⟨id :: registered, ?_, fun x hx => List.mem_cons_of_mem id hx, ?_⟩
      · rw [hstep, List.append_nil]
        refine ⟨?_, ?_, ?_, ?_, ?_, hRN⟩
        · intro r v hr
          by_cases hreq : s.nextRefId = r
          · subst hreq
            have hv : id = v :=
              Option.some.inj ((alistLookup_set_self s.referenceInstanceId _ id).symm.trans hr)
            subst hv
            exact ⟨List.mem_cons_self _ _, fun hrep => hns (hRR hrep)⟩
          · rw [alistLookup_set_other _ _ _ _ hreq] at hr
            exact ⟨List.mem_cons_of_mem _ (hA r v hr).1, (hA r v hr).2⟩
        · intro r₁ r₂ v h₁ h₂
          by_cases e₁ : s.nextRefId = r₁ <;> by_cases e₂ : s.nextRefId = r₂
          · rw [← e₁, ← e₂]
          · subst e₁
            exfalso
            have hv : id = v :=
              Option.some.inj ((alistLookup_set_self s.referenceInstanceId _ id).symm.trans h₁)
            subst hv
            rw [alistLookup_set_other _ _ _ _ e₂] at h₂
            exact hns (hA r₂ id h₂).1
          · subst e₂
            exfalso
            have hv : id = v :=
              Option.some.inj ((alistLookup_set_self s.referenceInstanceId _ id).symm.trans h₂)
            subst hv
            rw [alistLookup_set_other _ _ _ _ e₁] at h₁
            exact hns (hA r₁ id h₁).1
          · rw [alistLookup_set_other _ _ _ _ e₁] at h₁
            rw [alistLookup_set_other _ _ _ _ e₂] at h₂
            exact hB r₁ r₂ v h₁ h₂
        · intro v hv
          have hvne : id ≠ v := fun he => hns (hRR (he ▸ hv))
          rw [alistLookup_set_other _ _ _ _ hvne]
          exact hC v hv
        · intro v hh hv
          by_cases he : id = v
          · subst he
            exact List.mem_cons_self _ _
          · rw [alistLookup_set_other _ _ _ _ he] at hv
            exact List.mem_cons_of_mem _ (hF v hh hv)
        · exact fun v hv => List.mem_cons_of_mem _ (hRR hv)
      · intro x hx
        rcases List.mem_cons.mp hx with rfl | hx'
        · exact Or.inr rfl
        · exact Or.inl hx'
  | release id =>
    cases hl : alistLookup s.objectsById id with
    | some h =>
      have hrel : s.release id = .ok { s with
          objectsById := alistSet s.objectsById id { h with hasStrong := false } } := by
        unfold JStore.release
        rw [hl]
      have hstep : s.step (.release id) = ({ s with
          objectsById := alistSet s.objectsById id { h with hasStrong := false } }, []) := by
        show ((match s.release id with | .ok s' => s' | .error _ => s), []) = _
        rw [hrel]
      refine ⟨registered, ?_, fun x hx => hx, fun x hx => Or.inl hx⟩
      rw [hstep, List.append_nil]
      exact ⟨hA, hB, objSet_C s.objectsById reported id h _ hC hl,
        objSet_F s.objectsById registered id h _ hF hl, hRR, hRN⟩
    | none =>
      have herr : s.release id = .error .assertionError := by
        unfold JStore.release
        rw [hl]
      have hstep : s.step (.release id) = (s, []) := by
        show ((match s.release id with | .ok s' => s' | .error _ => s), []) = _
        rw [herr]
      refine ⟨registered, ?_, fun x hx => hx, fun x hx => Or.inl hx⟩
      rw [hstep, List.append_nil]
      exact ⟨hA, hB, hC, hF, hRR, hRN⟩
  | retain id =>
    cases hl : alistLookup s.objectsById id with
    | some h =>
      cases hw : h.weakAlive with
      | true =>
        have hret : s.retain id = .ok { s with
            objectsById := alistSet s.objectsById id { h with hasStrong := true } } := by
          unfold JStore.retain
          simp [hl, hw]
        have hstep : s.step (.retain id) = ({ s with
            objectsById := alistSet s.objectsById id { h with hasStrong := true } }, []) := by
          show ((match s.retain id with | .ok s' => s' | .error _ => s), []) = _
          rw [hret]
        refine ⟨registered, ?_, fun x hx => hx, fun x hx => Or.inl hx⟩
        rw [hstep, List.append_nil]
        exact ⟨hA, hB, objSet_C s.objectsById reported id h _ hC hl,
          objSet_F s.objectsById registered id h _ hF hl, hRR, hRN⟩
      | false =>
        have herr : s.retain id = .error .assertionError := by
          unfold JStore.retain
          simp [hl, hw]
        have hstep : s.step (.retain id) = (s, []) := by
          show ((match s.retain id with | .ok s' => s' | .error _ => s), []) = _
          rw [herr]
        refine ⟨registered, ?_, fun x hx => hx, fun x hx => Or.inl hx⟩
        rw [hstep, List.append_nil]
        exact ⟨hA, hB, hC, hF, hRR, hRN⟩
    | none =>
      have herr : s.retain id = .error .assertionError := by
        unfold JStore.retain
        rw [hl]
      have hstep : s.step (.retain id) = (s, []) := by
        show ((match s.retain id with | .ok s' => s' | .error _ => s), []) = _
        rw [herr]
      refine ⟨registered, ?_, fun x hx => hx, fun x hx => Or.inl hx⟩
      rw [hstep, List.append_nil]
      exact ⟨hA, hB, hC, hF, hRR, hRN⟩
  | collect id =>
    have hstep2 : (s.step (.collect id)).2 = [] := rfl
    have hstep1 : (s.step (.collect id)).1 = s.collect id := rfl
    refine ⟨registered, ?_, fun x hx => hx, fun x hx => Or.inl hx⟩
    rw [hstep1, hstep2, List.append_nil]
    unfold JStore.collect
    cases hl : alistLookup s.objectsById id with
    | some h =>
      show JInv (if (h.hasStrong || !h.weakAlive) = true then s
        else { s with objectsById := alistSet s.objectsById id { h with weakAlive := false },
                      referenceQueue := s.referenceQueue ++ [h.refId] }) registered reported
      by_cases hsp : (h.hasStrong || !h.weakAlive) = true
      · rw [if_pos hsp]
        exact ⟨hA, hB, hC, hF, hRR, hRN⟩
      · rw [if_neg hsp]
        exact ⟨hA, hB, objSet_C s.objectsById reported id h _ hC hl,
          objSet_F s.objectsById registered id h _ hF hl, hRR, hRN⟩
    | none =>
      exact ⟨hA, hB, hC, hF, hRR, hRN⟩
  | drain =>
    obtain ⟨c₁, c₂, c₃, c₄, c₅, c₆, c₇⟩ :=
      drainAux_spec s.referenceQueue s.referenceInstanceId s.objectsById [] hB
        (fun v hv => absurd hv (List.not_mem_nil v)) List.nodup_nil
    refine ⟨registered, ⟨?_, c₂, ?_, ?_, ?_, ?_⟩, fun x hx => hx, fun x hx => Or.inl hx⟩
    · intro r v hr
      have hro := c₅ r v hr
      refine ⟨(hA r v hro).1, ?_⟩
      intro hmem
      rcases List.mem_append.mp hmem with hrep | hdr
      · exact (hA r v hro).2 hrep
      · exact (c₃ v hdr).1 r hr
    · intro v hv
      rcases List.mem_append.mp hv with hrep | hdr
      · exact c₇ v (hC v hrep)
      · exact (c₃ v hdr).2
    · exact fun v hh hv => hF v hh (c₆ v hh hv)
    · intro v hv
      rcases List.mem_append.mp hv with hrep | hdr
      · exact hRR hrep
      · rcases c₄ v hdr with hnil | ⟨r, hr⟩
        · exact absurd hnil (List.not_mem_nil v)
        · exact (hA r v hr).1
    · rw [List.nodup_append]
      refine ⟨hRN, c₁, ?_⟩
      intro v hvrep hvdr
      rcases c₄ v hvdr with hnil | ⟨r, hr⟩
      · exact absurd hnil (List.not_mem_nil v)
      · exact (hA r v hr).2 hvrep

/-- Running a trace from an invariant state keeps the invariant, with the
drained IDs appended to the reported list. -/
theorem jrun_inv :
    ∀ (ops : List JOp) (s : JStore) (registered reported : List String),
      JInv s registered reported →
      (∀ id ∈ regIds ops, id ∉ registered) →
      (regIds ops).Nodup →
      ∃ registered',
        JInv (JStore.runCollect s ops).1 registered'
          (reported ++ (JStore.runCollect s ops).2) ∧
        registered ⊆ registered' ∧
        (∀ x ∈ registered', x ∈ registered ∨ x ∈ regIds ops) := by
  intro ops
  induction ops with
  | nil =>
    intro s registered reported hinv _ _
    refine ⟨registered, ?_, fun x hx => hx, fun x hx => Or.inl hx⟩
    show JInv s registered (reported ++ [])
    rw [List.append_nil]
    exact hinv
  | cons op rest ih =>
    intro s registered reported hinv hfresh hnd
    have hnd' := hnd
    rw [regIds_cons] at hnd'
    obtain ⟨hndhead, hndrest, hdisj⟩ := List.nodup_append.mp hnd'
    have hfreshop : ∀ id, op = JOp.register id → id ∉ registered := by
      intro id hop
      apply hfresh
      rw [regIds_cons, hop]
      exact List.mem_append.mpr (Or.inl (List.mem_cons_self _ _))
    obtain ⟨reg₁, hinv₁, hsub₁, hchar₁⟩ := jstep_inv s op registered reported hinv hfreshop
    have hfreshrest : ∀ id ∈ regIds rest, id ∉ reg₁ := by
      intro id hid hmem
      rcases hchar₁ id hmem with hreg | hop
      · refine hfresh id ?_ hreg
        rw [regIds_cons]
        exact List.mem_append.mpr (Or.inr hid)
      · subst hop
        exact hdisj (List.mem_cons_self id []) hid
    obtain ⟨reg₂, hinv₂, hsub₂, hchar₂⟩ :=
      ih (s.step op).1 reg₁ (reported ++ (s.step op).2) hinv₁ hfreshrest hndrest
    refine ⟨reg₂, ?_, fun x hx => hsub₂ (hsub₁ hx), ?_⟩
    · show JInv (JStore.runCollect (s.step op).1 rest).1 reg₂
        (reported ++ ((s.step op).2 ++ (JStore.runCollect (s.step op).1 rest).2))
      rw [← List.append_assoc]
      exact hinv₂
    · intro x hx
      rcases hchar₂ x hx with hx₁ | hxr
      · rcases hchar₁ x hx₁ with hxr₀ | hop
        · exact Or.inl hxr₀
        · subst hop
          refine Or.inr ?_
          rw [regIds_cons]
          exact List.mem_append.mpr (Or.inl (List.mem_cons_self x []))
      · refine Or.inr ?_
        rw [regIds_cons]
        exact List.mem_append.mpr (Or.inr hxr)

theorem runCollect_append :
    ∀ (pre post : List JOp) (s : JStore),
      JStore.runCollect s (pre ++ post)
        = ((JStore.runCollect (JStore.runCollect s pre).1 post).1,
           (JStore.runCollect s pre).2
             ++ (JStore.runCollect (JStore.runCollect s pre).1 post).2) := by
  intro pre
  induction pre with
  | nil =>
    intro post s
    show JStore.runCollect s post = _
    simp [JStore.runCollect]
  | cons op rest ih =>
    intro post s
    show ((JStore.runCollect (s.step op).1 (rest ++ post)).1,
      (s.step op).2 ++ (JStore.runCollect (s.step op).1 (rest ++ post)).2) = _
    rw [ih post (s.step op).1]
    simp [JStore.runCollect, List.append_assoc]

/-- C10: every instance ID returned by `getDroppedReferences` has been
removed from both the reference-to-ID map and the ID-to-handle map during
the drain (so `getObject` answers null right away); across a whole trace
in which the kernel never reuses an instance ID (each `register` names a
fresh ID, which spec invariant 1 guarantees), every dropped ID is reported
by at most one drain — each ID at most once over the concatenation of all
drain outputs — and `getObject` keeps answering null ever after. -/
theorem c10_dropped_references (s : JStore) (ops pre post : List JOp) (id : String) :
    ((∀ r₁ r₂ v, alistLookup s.referenceInstanceId r₁ = some v →
        alistLookup s.referenceInstanceId r₂ = some v → r₁ = r₂) →
      ∀ v ∈ s.getDroppedReferences.1,
        alistLookup s.getDroppedReferences.2.objectsById v = none ∧
        (∀ r, ¬ alistLookup s.getDroppedReferences.2.referenceInstanceId r = some v) ∧
        s.getDroppedReferences.2.getObject v = false) ∧
    ((regIds ops).Nodup → (JStore.runCollect JStore.init ops).2.Nodup) ∧
    ((regIds (pre ++ post)).Nodup → id ∈ (JStore.runCollect JStore.init pre).2 →
      (JStore.runCollect JStore.init (pre ++ post)).1.getObject id = false) := by
  refine ⟨?_, ?_, ?_⟩
  · intro hB v hv
    obtain ⟨c₁, c₂, c₃, c₄, c₅, c₆, c₇⟩ :=
      drainAux_spec s.referenceQueue s.referenceInstanceId s.objectsById [] hB
        (fun x hx => absurd hx (List.not_mem_nil x)) List.nodup_nil
    have hobj := (c₃ v hv).2
    refine ⟨hobj, (c₃ v hv).1, ?_⟩
    show (match alistLookup
        (drainAux s.referenceQueue s.referenceInstanceId s.objectsById []).2.2 v with
      | some h => h.getReferent
      | none => false) = false
    rw [hobj]
  · intro hnd
    obtain ⟨reg', hinv', _, _⟩ :=
      jrun_inv ops JStore.init [] [] jinv_init
        (fun x _ hx => absurd hx (List.not_mem_nil x)) hnd
    have := hinv'.2.2.2.2.2
    rw [List.nil_append] at this
    exact this
  · intro hnd hid
    have hsplit : regIds (pre ++ post) = regIds pre ++ regIds post := by
      unfold regIds
      exact List.filterMap_append _ _ _
    have hnds : (regIds pre).Nodup ∧ (regIds post).Nodup ∧
        ∀ x ∈ regIds pre, x ∉ regIds post := by
      rw [hsplit] at hnd
      exact List.nodup_append.mp hnd
    obtain ⟨reg₁, hinv₁, _, hchar₁⟩ :=
      jrun_inv pre JStore.init [] [] jinv_init
        (fun x _ hx => absurd hx (List.not_mem_nil x)) hnds.1
    rw [List.nil_append] at hinv₁
    obtain ⟨reg₂, hinv₂, _, _⟩ :=
      jrun_inv post (JStore.runCollect JStore.init pre).1 reg₁
        (JStore.runCollect JStore.init pre).2 hinv₁
        (fun x hx hmem => by
          rcases hchar₁ x hmem with hnil | hpre
          · exact absurd hnil (List.not_mem_nil x)
          · exact hnds.2.2 x hpre hx) hnds.2.1
    have hCnone := hinv₂.2.2.1 id
      (List.mem_append.mpr (Or.inl hid))
    have hfst : (JStore.runCollect JStore.init (pre ++ post)).1
        = (JStore.runCollect (JStore.runCollect JStore.init pre).1 post).1 := by
      rw [runCollect_append]
    rw [hfst]
    show (match alistLookup
        (JStore.runCollect (JStore.runCollect JStore.init pre).1 post).1.objectsById id with
      | some h => h.getReferent
      | none => false) = false
    rw [hCnone]

/-- C10 witness: registering `X`, dropping the host strong reference,
collecting the proxy and draining reports `X` exactly once, after which
`getObject "X"` answers null. -/
theorem c10_dropped_references_witness :
    "X" ∈ (JStore.runCollect JStore.init
      [.register "X", .release "X", .collect "X", .drain]).2 ∧
    (JStore.runCollect JStore.init
      [.register "X", .release "X", .collect "X", .drain]).2.Nodup ∧
    (JStore.runCollect JStore.init
      [.register "X", .release "X", .collect "X", .drain]).1.getObject "X" = false :=
  ⟨by decide,
   (c10_dropped_references JStore.init
      [.register "X", .release "X", .collect "X", .drain]
      [.register "X", .release "X", .collect "X", .drain] [] "X").2.1 (by decide),
   (c10_dropped_references JStore.init
      [.register "X", .release "X", .collect "X", .drain]
      [.register "X", .release "X", .collect "X", .drain] [] "X").2.2 (by decide) (by decide)⟩

end JsiiModel
